import Mathlib

/-!
Verification of the Taskman per-project task storage core.

This file gives a shallow embedding, in Lean 4, of the parts of the
`ai-sandbox` task tracker that its design document makes claims about:

* `src/taskman/server/sqlite_storage.py` — the SQLite-backed task storage
  engine (`_project_table_name`, `SQLiteTaskStore.fetch_all`,
  `SQLiteTaskStore.upsert_task`, `SQLiteTaskStore.bulk_replace`,
  `SQLiteTaskStore.delete_task`);
* `src/taskman/server/project_manager.py` — the file-based project registry
  (`ProjectManager.edit_project_name`);
* `src/taskman/project.py` — the request-payload validation layer
  (`Project.create_task_from_payload`, `Project.update_task_from_payload`,
  `Project.delete_task_from_payload`);
* `src/taskman/server/tasker_server.py` — the JSON body handling of the
  task mutation routes;
* `task_manager.py` — the CLI task manager (`TaskManager._generate_task_id`,
  `create_task`, `delete_task`).

Python dictionaries are modelled as association lists, Python/JSON values by
the inductive type `PyVal`, SQLite cell values by `SQVal`, and fallible
operations return `Except` paired with the post-state, so that a failing
operation makes its state effect (or absence of one) explicit.
-/

set_option autoImplicit false

namespace Taskman

/-! ## Python value model

`PyVal` covers the JSON-derived values that reach the storage and API
layers: `None`, strings, integers and booleans.  `truthy` is Python's
truth test on these values.
-/

/-- A Python value as received from a JSON request payload. -/
inductive PyVal where
  | none : PyVal
  | str (s : String) : PyVal
  | int (n : Int) : PyVal
  | bool (b : Bool) : PyVal
  deriving DecidableEq, Repr

/-- Python truthiness: `None`, `""`, `0` and `False` are falsy. -/
def PyVal.truthy : PyVal → Bool
  | .none => false
  | .str s => !s.isEmpty
  | .int n => n != 0
  | .bool b => b

/-! ## Table naming (`_project_table_name`)

Source:
    base = project_name.strip().lower()
    if not base:
        raise ValueError("Project name must be a non-empty string")
    sanitized = re.sub(r"[^a-z0-9_]", "_", base)
    return f"(table prefix)(sanitized)"

Strings are modelled as `List Char`.  `pyIsSpace` is the ASCII whitespace
set recognised by Python's `str.strip()`; `Char.toLower` coincides with
Python's `str.lower()` on the ASCII range.
-/

/-- ASCII whitespace, as stripped by Python's `str.strip()`. -/
def pyIsSpace (c : Char) : Bool :=
  c.toNat == 32 || c.toNat == 9 || c.toNat == 10 ||
    c.toNat == 13 || c.toNat == 11 || c.toNat == 12

/-- Python `str.strip()`: drop whitespace from both ends. -/
def pyStrip (s : List Char) : List Char :=
  (s.dropWhile pyIsSpace).rdropWhile pyIsSpace

/-- Characters that the sanitizer keeps unchanged: `a`-`z`, `0`-`9`, `_`. -/
def isTableChar (c : Char) : Bool :=
  ('a' ≤ c && c ≤ 'z') || ('0' ≤ c && c ≤ '9') || c == '_'

/-- One step of `re.sub` with pattern `[^a-z0-9_]` and replacement `_`. -/
def sanitizeChar (c : Char) : Char :=
  if isTableChar c then c else '_'

/-- The fixed table-name prefix prepended to every sanitized project name. -/
def tablePref : List Char := ("tasks_".data)

/-- The error raised on an empty (or all-whitespace) project name. -/
inductive NameErr where
  | invalidArgument : NameErr
  deriving DecidableEq, Repr

/-- Embedding of `_project_table_name` from `sqlite_storage.py`. -/
def _project_table_name (project_name : List Char) : Except NameErr (List Char) :=
  let base := (pyStrip project_name).map Char.toLower
  if base.isEmpty then
    Except.error NameErr.invalidArgument
  else
    Except.ok (tablePref ++ base.map sanitizeChar)

/-! Auxiliary lemmas: `Char.toLower` preserves the whitespace predicate, so
stripping commutes with lowercasing. -/

theorem toNat_ofNat_of_valid (n : Nat) (h : n.isValidChar) :
    (Char.ofNat n).toNat = n := by
  simp only [Char.ofNat, h, dite_true, Char.ofNatAux]
  rfl

theorem notSpace_of_ge65 (m : Nat) (hm : 65 ≤ m) :
    (m == 32 || m == 9 || m == 10 || m == 13 || m == 11 || m == 12) = false := by
  simp only [Bool.or_eq_false_iff, beq_eq_false_iff_ne, ne_eq]
  omega

theorem pyIsSpace_toLower (c : Char) : pyIsSpace c.toLower = pyIsSpace c := by
  by_cases h : 65 ≤ c.toNat ∧ c.toNat ≤ 90
  · have hv : (c.toNat + 32).isValidChar := by
      left
      have := h.2
      omega
    have hlow : c.toLower = Char.ofNat (c.toNat + 32) := by
      unfold Char.toLower
      show (if c.toNat ≥ 65 ∧ c.toNat ≤ 90 then Char.ofNat (c.toNat + 32) else c) = _
      exact if_pos h
    have hn := toNat_ofNat_of_valid (c.toNat + 32) hv
    unfold pyIsSpace
    rw [hlow, hn, notSpace_of_ge65 _ (by omega), notSpace_of_ge65 _ h.1]
  · have hc : c.toLower = c := by
      unfold Char.toLower
      show (if c.toNat ≥ 65 ∧ c.toNat ≤ 90 then Char.ofNat (c.toNat + 32) else c) = c
      exact if_neg h
    rw [hc]

theorem pyIsSpace_comp_toLower : (pyIsSpace ∘ Char.toLower) = pyIsSpace := by
  funext c
  exact pyIsSpace_toLower c

theorem map_toLower_dropWhile (l : List Char) :
    (l.dropWhile pyIsSpace).map Char.toLower =
      (l.map Char.toLower).dropWhile pyIsSpace := by
  rw [List.dropWhile_map, pyIsSpace_comp_toLower]

theorem map_toLower_pyStrip (l : List Char) :
    (pyStrip l).map Char.toLower = pyStrip (l.map Char.toLower) := by
  unfold pyStrip List.rdropWhile
  rw [List.map_reverse, map_toLower_dropWhile, List.map_reverse,
    map_toLower_dropWhile]

/-- C5: table naming is a pure deterministic function: an empty trimmed name
fails with `InvalidArgument`; otherwise the result is the fixed prefix
followed by the lowercased trimmed name with every character outside
`[a-z0-9_]` replaced by `_`; and names equal up to case map to the same
table identifier. -/
theorem C5_project_table_name :
    (∀ name : List Char, pyStrip name = [] →
      _project_table_name name = Except.error NameErr.invalidArgument) ∧
    (∀ name : List Char, pyStrip name ≠ [] →
      _project_table_name name =
        Except.ok (tablePref ++ ((pyStrip name).map Char.toLower).map sanitizeChar)) ∧
    (∀ n₁ n₂ : List Char, n₁.map Char.toLower = n₂.map Char.toLower →
      _project_table_name n₁ = _project_table_name n₂) := by
  refine ⟨?_, ?_, ?_⟩
  · intro name h
    simp [_project_table_name, h]
  · intro name h
    simp [_project_table_name, h]
  · intro n₁ n₂ h
    unfold _project_table_name
    rw [map_toLower_pyStrip, map_toLower_pyStrip, h]

/-- Witness for C5 at concrete inputs: an all-whitespace name is rejected,
`Alpha/Beta` sanitizes to `tasks_alpha_beta`, and `MyProj` and `MYPROJ`
collide on the same table. -/
theorem C5_project_table_name_witness :
    _project_table_name (" ".data) = Except.error NameErr.invalidArgument ∧
    _project_table_name ("Alpha/Beta".data) = Except.ok ("tasks_alpha_beta".data) ∧
    _project_table_name ("MyProj".data) = _project_table_name ("MYPROJ".data) := by
  refine ⟨?_, ?_, ?_⟩
  · exact C5_project_table_name.1 (" ".data) (by decide)
  · have h := C5_project_table_name.2.1 ("Alpha/Beta".data) (by decide)
    rw [h]
    rfl
  · exact C5_project_table_name.2.2 ("MyProj".data) ("MYPROJ".data) (by decide)

/-! ## SQLite task storage engine (`SQLiteTaskStore`)

The database is modelled as an association list from table names to lists of
rows in insertion order; `SELECT ... ORDER BY task_id ASC` is modelled by
sorting that list by `task_id`.  SQLite cell values are modelled by `SQVal`;
storing a value in a `TEXT` column applies SQLite's text affinity
(`toTextCell`), and the `INTEGER PRIMARY KEY` column coerces values with
`toIdCell` (`NULL` rowid auto-assignment is outside the model; the claims
quantify over integer ids only).
-/

/-- An SQLite cell value (the `BLOB` and `REAL` classes are unreachable from
JSON payloads and are not modelled). -/
inductive SQVal where
  | null : SQVal
  | int (n : Int) : SQVal
  | text (s : String) : SQVal
  deriving DecidableEq, Repr

/-- SQLite `TEXT` affinity applied to a bound Python value. -/
def toTextCell : PyVal → SQVal
  | .none => .null
  | .str s => .text s
  | .int n => .text (toString n)
  | .bool b => .text (toString (if b then (1 : Int) else 0))

/-- Coercion of a bound Python value into the `INTEGER PRIMARY KEY` column:
integers pass through, booleans bind as 0/1, integer-looking text is
converted by integer affinity, everything else is a datatype mismatch. -/
def toIdCell : PyVal → Option Int
  | .int n => some n
  | .bool b => some (if b then 1 else 0)
  | .str s => s.toInt?
  | .none => Option.none

/-- A stored row of a per-project tasks table. -/
structure Row where
  task_id : Int
  summary : SQVal
  assignee : SQVal
  remarks : SQVal
  status : SQVal
  priority : SQVal
  highlight : Int
  deriving DecidableEq, Repr

/-- A task payload passed to `upsert_task` / `bulk_replace`: a Python dict,
with `Option.none` marking an absent key. -/
structure TaskPayload where
  task_id : Option PyVal := Option.none
  summary : Option PyVal := Option.none
  assignee : Option PyVal := Option.none
  remarks : Option PyVal := Option.none
  status : Option PyVal := Option.none
  priority : Option PyVal := Option.none
  highlight : Option PyVal := Option.none
  deriving Repr

/-- Python `task.get(key) or ""`: a missing, `None` or falsy value becomes
the empty string, anything truthy is kept. -/
def normText (v : Option PyVal) : PyVal :=
  let x := v.getD PyVal.none
  if x.truthy then x else .str ""

/-- Python `1 if task.get(key) else 0`. -/
def normHighlight (v : Option PyVal) : Int :=
  if (v.getD PyVal.none).truthy then 1 else 0

/-- The store: the open/closed flag of the single connection together with
the tables of the database file, keyed by table name. -/
structure StoreState where
  isOpen : Bool
  tables : List (List Char × List Row)
  deriving Repr

/-- Error taxonomy of the storage engine. -/
inductive StoreErr where
  | notOpen : StoreErr
  | invalidArgument : StoreErr
  | validationError : StoreErr
  | storageError : StoreErr
  deriving DecidableEq, Repr

/-- First-match lookup in the table association list. -/
def lookupRows : List (List Char × List Row) → List Char → Option (List Row)
  | [], _ => Option.none
  | p :: ps, t => if p.1 = t then some p.2 else lookupRows ps t

/-- Rows of a table, `Option.none` when the table does not exist. -/
def lookupTable (st : StoreState) (table : List Char) : Option (List Row) :=
  lookupRows st.tables table

/-- Overwrite the rows of an existing table. -/
def setTable (st : StoreState) (table : List Char) (rows : List Row) : StoreState :=
  { st with tables := st.tables.map (fun p => if p.1 = table then (p.1, rows) else p) }

/-- Embedding of `SQLiteTaskStore._ensure_table`: requires the connection to
be open, derives the table name, and runs `CREATE TABLE IF NOT EXISTS`. -/
def _ensure_table (st : StoreState) (project_name : List Char) :
    Except StoreErr (List Char × StoreState) :=
  if !st.isOpen then Except.error StoreErr.notOpen
  else
    match _project_table_name project_name with
    | .error _ => Except.error StoreErr.invalidArgument
    | .ok table =>
      match lookupTable st table with
      | some _ => Except.ok (table, st)
      | Option.none => Except.ok (table, { st with tables := st.tables ++ [(table, [])] })

/-- The task dictionary shape returned by `fetch_all` (a `sqlite3.Row`
turned into a dict, with `highlight` passed through Python's `bool`). -/
structure FetchedTask where
  task_id : Int
  summary : PyVal
  assignee : PyVal
  remarks : PyVal
  status : PyVal
  priority : PyVal
  highlight : PyVal
  deriving DecidableEq, Repr

/-- A fetched SQLite cell as a Python value. -/
def sqToPy : SQVal → PyVal
  | .null => .none
  | .int n => .int n
  | .text s => .str s

/-- One row of the `fetch_all` result. -/
def rowToDict (r : Row) : FetchedTask :=
  { task_id := r.task_id
    summary := sqToPy r.summary
    assignee := sqToPy r.assignee
    remarks := sqToPy r.remarks
    status := sqToPy r.status
    priority := sqToPy r.priority
    highlight := .bool (r.highlight != 0) }

/-- Row comparison used to model `ORDER BY task_id ASC`. -/
def rowLe (a b : Row) : Prop := a.task_id ≤ b.task_id

instance : DecidableRel rowLe := fun a b => inferInstanceAs (Decidable (a.task_id ≤ b.task_id))

instance : IsTotal Row rowLe := ⟨fun a b => Int.le_total a.task_id b.task_id⟩

instance : IsTrans Row rowLe := ⟨fun _ _ _ h₁ h₂ => le_trans h₁ h₂⟩

/-- Embedding of `SQLiteTaskStore.fetch_all`. -/
def fetch_all (st : StoreState) (project_name : List Char) :
    Except StoreErr (List FetchedTask) × StoreState :=
  if !st.isOpen then (Except.error StoreErr.notOpen, st)
  else
    match _ensure_table st project_name with
    | .error e => (Except.error e, st)
    | .ok (table, st₁) =>
      let rows := (lookupTable st₁ table).getD []
      (Except.ok ((rows.insertionSort rowLe).map rowToDict), st₁)

/-- Embedding of `SQLiteTaskStore.upsert_task`: validates the required keys,
ensures the table, then runs the single `INSERT ... ON CONFLICT(task_id) DO
UPDATE` statement. -/
def upsert_task (st : StoreState) (project_name : List Char) (task : TaskPayload) :
    Except StoreErr Unit × StoreState :=
  if !st.isOpen then (Except.error StoreErr.notOpen, st)
  else if task.task_id.isNone || task.summary.isNone || task.status.isNone
      || task.priority.isNone then
    (Except.error StoreErr.validationError, st)
  else
    match _ensure_table st project_name with
    | .error e => (Except.error e, st)
    | .ok (table, st₁) =>
      match toIdCell (task.task_id.getD PyVal.none) with
      | Option.none => (Except.error StoreErr.storageError, st₁)
      | some tid =>
        let newRow : Row :=
          { task_id := tid
            summary := toTextCell (normText task.summary)
            assignee := toTextCell (normText task.assignee)
            remarks := toTextCell (normText task.remarks)
            status := toTextCell (normText task.status)
            priority := toTextCell (normText task.priority)
            highlight := normHighlight task.highlight }
        let rows := (lookupTable st₁ table).getD []
        let rows' :=
          if rows.any (fun r => r.task_id == tid) then
            rows.map (fun r => if r.task_id == tid then newRow else r)
          else rows ++ [newRow]
        (Except.ok (), setTable st₁ table rows')

/-- A `bulk_replace` payload row after normalization (the source's
`normalized` list: `task_id` kept as given, text fields defaulted, the
highlight flag collapsed to 0/1). -/
structure NormRow where
  task_id : PyVal
  summary : PyVal
  assignee : PyVal
  remarks : PyVal
  status : PyVal
  priority : PyVal
  highlight : Int
  deriving Repr

/-- Normalization of one `bulk_replace` payload entry. -/
def normalizeTask (t : TaskPayload) : NormRow :=
  { task_id := t.task_id.getD PyVal.none
    summary := normText t.summary
    assignee := normText t.assignee
    remarks := normText t.remarks
    status := normText t.status
    priority := normText t.priority
    highlight := normHighlight t.highlight }

/-- The normalization loop of `bulk_replace`: raises `ValidationError` at
the first task that lacks a `task_id` key. -/
def normalizeTasks : List TaskPayload → Except StoreErr (List NormRow)
  | [] => Except.ok []
  | t :: ts =>
    if t.task_id.isNone then Except.error StoreErr.validationError
    else
      match normalizeTasks ts with
      | .error e => Except.error e
      | .ok rest => Except.ok (normalizeTask t :: rest)

/-- One `INSERT` of the transaction: fails on an id datatype mismatch or a
primary-key conflict with an already-inserted row. -/
def insertNormRow (rows : List Row) (t : NormRow) : Option (List Row) :=
  match toIdCell t.task_id with
  | Option.none => Option.none
  | some tid =>
    if rows.any (fun r => r.task_id == tid) then Option.none
    else
      some (rows ++
        [{ task_id := tid
           summary := toTextCell t.summary
           assignee := toTextCell t.assignee
           remarks := toTextCell t.remarks
           status := toTextCell t.status
           priority := toTextCell t.priority
           highlight := t.highlight }])

/-- The `executemany` insertion loop, after `DELETE FROM` emptied the table. -/
def insertAll (rows : List Row) : List NormRow → Option (List Row)
  | [] => some rows
  | t :: ts =>
    match insertNormRow rows t with
    | some rows₁ => insertAll rows₁ ts
    | Option.none => Option.none

/-- Embedding of `SQLiteTaskStore.bulk_replace`: ensure table, normalize
(raising `ValidationError` on a task without an id), then run the explicit
transaction - `BEGIN`, `DELETE FROM`, `executemany INSERT`, `COMMIT` -
rolling back to the pre-transaction state on any insertion failure. -/
def bulk_replace (st : StoreState) (project_name : List Char)
    (tasks : List TaskPayload) : Except StoreErr Unit × StoreState :=
  if !st.isOpen then (Except.error StoreErr.notOpen, st)
  else
    match _ensure_table st project_name with
    | .error e => (Except.error e, st)
    | .ok (table, st₁) =>
      match normalizeTasks tasks with
      | .error e => (Except.error e, st₁)
      | .ok normalized =>
        match insertAll [] normalized with
        | some newRows => (Except.ok (), setTable st₁ table newRows)
        | Option.none => (Except.error StoreErr.storageError, st₁)

/-- The rows currently stored for a project (empty when the project's table
does not exist or the project name is invalid). -/
def storedTasks (st : StoreState) (project_name : List Char) : List Row :=
  match _project_table_name project_name with
  | .ok table => (lookupTable st table).getD []
  | .error _ => []

/-! ### Lemmas about table lookup and `_ensure_table` -/

theorem lookupRows_append_self (l : List (List Char × List Row)) (t : List Char)
    (rows : List Row) (h : lookupRows l t = Option.none) :
    lookupRows (l ++ [(t, rows)]) t = some rows := by
  induction l with
  | nil => simp [lookupRows]
  | cons p ps ih =>
    by_cases hp : p.1 = t
    · simp [lookupRows, hp] at h
    · simp only [List.cons_append, lookupRows, hp, if_false] at h ⊢
      exact ih h

theorem ensure_table_spec (st : StoreState) (proj table : List Char) (st₁ : StoreState)
    (h : _ensure_table st proj = Except.ok (table, st₁)) :
    st.isOpen = true ∧ _project_table_name proj = Except.ok table ∧
    lookupTable st₁ table = some ((lookupTable st table).getD []) ∧
    storedTasks st₁ proj = (lookupTable st table).getD [] := by
  unfold _ensure_table at h
  by_cases ho : st.isOpen
  · simp only [ho, Bool.not_true, Bool.false_eq_true, if_false] at h
    cases hn : _project_table_name proj with
    | error e => rw [hn] at h; exact absurd h (by simp)
    | ok tb =>
      rw [hn] at h
      dsimp only at h
      cases hl : lookupTable st tb with
      | some rows =>
        rw [hl] at h
        obtain ⟨rfl, rfl⟩ := by simpa using h
        exact ⟨ho, rfl, by simp [hl], by simp [storedTasks, hn, hl]⟩
      | none =>
        rw [hl] at h
        obtain ⟨rfl, rfl⟩ := by simpa using h
        have hl' : lookupRows st.tables tb = Option.none := hl
        have happ := lookupRows_append_self st.tables tb [] hl
        refine ⟨ho, rfl, ?_, ?_⟩
        · simp [lookupTable, happ, hl']
        · simp [storedTasks, hn, lookupTable, happ, hl']
  · simp only [Bool.not_eq_true'] at ho
    simp [ho] at h

/-- C6: `fetch_all` returns the project's stored tasks sorted in ascending
id order (a sorted permutation of the stored rows), and for a project whose
table does not yet exist it returns the empty list rather than an error,
creating the still-empty table as a side effect. -/
theorem C6_fetch_all :
    (∀ (st : StoreState) (proj : List Char) (out : List FetchedTask) (st₁ : StoreState),
      fetch_all st proj = (Except.ok out, st₁) →
      out.Pairwise (fun a b => a.task_id ≤ b.task_id) ∧
      out.Perm ((storedTasks st₁ proj).map rowToDict)) ∧
    (∀ (st : StoreState) (proj table : List Char),
      st.isOpen = true →
      _project_table_name proj = Except.ok table →
      lookupTable st table = Option.none →
      fetch_all st proj =
        (Except.ok [], { st with tables := st.tables ++ [(table, [])] })) := by
  constructor
  · intro st proj out st₁ h
    unfold fetch_all at h
    by_cases ho : st.isOpen
    · simp only [ho, Bool.not_true, Bool.false_eq_true, if_false] at h
      cases he : _ensure_table st proj with
      | error e => rw [he] at h; exact absurd h (by simp)
      | ok pr =>
        obtain ⟨table, st'⟩ := pr
        rw [he] at h
        obtain ⟨hopen, hname, hlook, hstored⟩ := ensure_table_spec st proj table st' he
        obtain ⟨hout, hst⟩ := by simpa using h
        subst hst
        constructor
        · rw [← hout]
          refine List.pairwise_map.mpr ?_
          exact List.sorted_insertionSort rowLe _
        · rw [← hout, hstored, hlook]
          simp only [Option.getD_some]
          exact (List.perm_insertionSort rowLe _).map rowToDict
    · simp only [Bool.not_eq_true'] at ho
      simp [ho] at h
  · intro st proj table ho hname hnone
    have hnone' : lookupRows st.tables table = Option.none := hnone
    have happ := lookupRows_append_self st.tables table [] hnone
    unfold fetch_all _ensure_table
    simp [ho, hname, hnone', lookupTable, happ]

/-- Witness for C6: fetching project `p` from a store whose table holds ids
2 and 1 (in that insertion order) returns them sorted ascending and as a
permutation of the stored rows; fetching from a store with no tables
returns the empty list and creates the empty table. -/
theorem C6_fetch_all_witness :
    (fetch_all ⟨true, [(("tasks_p".data),
        [⟨2, SQVal.text "b", SQVal.text "", SQVal.text "", SQVal.text "s", SQVal.text "m", 1⟩,
         ⟨1, SQVal.text "a", SQVal.text "", SQVal.text "", SQVal.text "s", SQVal.text "m", 0⟩])]⟩
      ("p".data) =
      (Except.ok
        [rowToDict ⟨1, SQVal.text "a", SQVal.text "", SQVal.text "", SQVal.text "s", SQVal.text "m", 0⟩,
         rowToDict ⟨2, SQVal.text "b", SQVal.text "", SQVal.text "", SQVal.text "s", SQVal.text "m", 1⟩],
       ⟨true, [(("tasks_p".data),
        [⟨2, SQVal.text "b", SQVal.text "", SQVal.text "", SQVal.text "s", SQVal.text "m", 1⟩,
         ⟨1, SQVal.text "a", SQVal.text "", SQVal.text "", SQVal.text "s", SQVal.text "m", 0⟩])]⟩) ∧
      List.Pairwise (fun a b : FetchedTask => a.task_id ≤ b.task_id)
        [rowToDict ⟨1, SQVal.text "a", SQVal.text "", SQVal.text "", SQVal.text "s", SQVal.text "m", 0⟩,
         rowToDict ⟨2, SQVal.text "b", SQVal.text "", SQVal.text "", SQVal.text "s", SQVal.text "m", 1⟩]) ∧
    fetch_all ⟨true, []⟩ ("p".data) =
      (Except.ok [], ⟨true, [(("tasks_p".data), [])]⟩) := by
  refine ⟨⟨rfl, ?_⟩, ?_⟩
  · exact (C6_fetch_all.1
      ⟨true, [(("tasks_p".data),
        [⟨2, SQVal.text "b", SQVal.text "", SQVal.text "", SQVal.text "s", SQVal.text "m", 1⟩,
         ⟨1, SQVal.text "a", SQVal.text "", SQVal.text "", SQVal.text "s", SQVal.text "m", 0⟩])]⟩
      ("p".data)
      [rowToDict ⟨1, SQVal.text "a", SQVal.text "", SQVal.text "", SQVal.text "s", SQVal.text "m", 0⟩,
       rowToDict ⟨2, SQVal.text "b", SQVal.text "", SQVal.text "", SQVal.text "s", SQVal.text "m", 1⟩]
      ⟨true, [(("tasks_p".data),
        [⟨2, SQVal.text "b", SQVal.text "", SQVal.text "", SQVal.text "s", SQVal.text "m", 1⟩,
         ⟨1, SQVal.text "a", SQVal.text "", SQVal.text "", SQVal.text "s", SQVal.text "m", 0⟩])]⟩
      rfl).1
  · exact C6_fetch_all.2 ⟨true, []⟩ ("p".data) ("tasks_p".data) rfl rfl rfl

/-! ### Lemmas about the `bulk_replace` transaction -/

theorem ensure_table_ok (st : StoreState) (proj table : List Char)
    (ho : st.isOpen = true) (hn : _project_table_name proj = Except.ok table) :
    ∃ st₁, _ensure_table st proj = Except.ok (table, st₁) := by
  unfold _ensure_table
  rw [hn]
  cases hl : lookupTable st table with
  | some rows => exact ⟨st, by simp [ho, hl]⟩
  | none =>
    refine ⟨{ st with tables := st.tables ++ [(table, [])] }, ?_⟩
    simp [ho, hl]

theorem normalizeTasks_missing (tasks : List TaskPayload)
    (h : ∃ t ∈ tasks, t.task_id = Option.none) :
    normalizeTasks tasks = Except.error StoreErr.validationError := by
  induction tasks with
  | nil => simp at h
  | cons t ts ih =>
    obtain ⟨u, hu, hid⟩ := h
    rcases List.mem_cons.mp hu with rfl | hmem
    · simp [normalizeTasks, hid]
    · unfold normalizeTasks
      by_cases ht : t.task_id.isNone
      · simp [ht]
      · simp only [ht, Bool.false_eq_true, if_false]
        rw [ih ⟨u, hmem, hid⟩]

theorem normalizeTasks_ok (tasks : List TaskPayload) (l : List NormRow)
    (h : normalizeTasks tasks = Except.ok l) : l = tasks.map normalizeTask := by
  induction tasks generalizing l with
  | nil => simpa [normalizeTasks] using h.symm
  | cons t ts ih =>
    unfold normalizeTasks at h
    by_cases ht : t.task_id.isNone
    · simp [ht] at h
    · simp only [ht, Bool.false_eq_true, if_false] at h
      cases hr : normalizeTasks ts with
      | error e => rw [hr] at h; exact absurd h (by simp)
      | ok rest =>
        rw [hr] at h
        obtain rfl := by simpa using h.symm
        simp [List.map_cons, ih rest hr]

theorem insertNormRow_spec (rows : List Row) (t : NormRow) (rows₁ : List Row)
    (h : insertNormRow rows t = some rows₁) :
    ∃ k, toIdCell t.task_id = some k ∧ (∀ r ∈ rows, r.task_id ≠ k) ∧
      ∃ nr, nr.task_id = k ∧ rows₁ = rows ++ [nr] := by
  unfold insertNormRow at h
  cases hk : toIdCell t.task_id with
  | none => rw [hk] at h; exact absurd h (by simp)
  | some k =>
    rw [hk] at h
    by_cases hmem : rows.any (fun r => r.task_id == k)
    · simp [hmem] at h
    · simp only [hmem, Bool.false_eq_true, if_false, Option.some.injEq] at h
      simp only [List.any_eq_true, beq_iff_eq, not_exists] at hmem
      refine ⟨k, rfl, fun r hr he => hmem r ⟨hr, he⟩, ?_⟩
      exact ⟨_, rfl, h.symm⟩

theorem insertAll_ok_avoids : ∀ (ts : List NormRow) (rows res : List Row),
    insertAll rows ts = some res →
    ∀ t ∈ ts, ∀ k, toIdCell t.task_id = some k → ∀ r ∈ rows, r.task_id ≠ k := by
  intro ts
  induction ts with
  | nil => intro rows res _ t ht; simp at ht
  | cons t₀ ts ih =>
    intro rows res h t ht k hk r hr
    unfold insertAll at h
    cases hins : insertNormRow rows t₀ with
    | none => rw [hins] at h; exact absurd h (by simp)
    | some rows₁ =>
      rw [hins] at h
      obtain ⟨k₀, hk₀, havoid, nr, hnr, hrows₁⟩ := insertNormRow_spec rows t₀ rows₁ hins
      rcases List.mem_cons.mp ht with rfl | hmem
      · have := havoid r hr
        rw [hk₀] at hk
        obtain rfl := by simpa using hk
        exact this
      · exact ih rows₁ res h t hmem k hk r (by rw [hrows₁]; exact List.mem_append_left _ hr)

theorem insertAll_ok_pairwise : ∀ (ts : List NormRow) (rows res : List Row),
    insertAll rows ts = some res →
    ts.Pairwise (fun a b => ∀ j k, toIdCell a.task_id = some j →
      toIdCell b.task_id = some k → j ≠ k) := by
  intro ts
  induction ts with
  | nil => intro rows res _; exact List.Pairwise.nil
  | cons t₀ ts ih =>
    intro rows res h
    unfold insertAll at h
    cases hins : insertNormRow rows t₀ with
    | none => rw [hins] at h; exact absurd h (by simp)
    | some rows₁ =>
      rw [hins] at h
      obtain ⟨k₀, hk₀, _, nr, hnr, hrows₁⟩ := insertNormRow_spec rows t₀ rows₁ hins
      refine List.Pairwise.cons ?_ (ih rows₁ res h)
      intro b hb j k hj hk
      rw [hk₀] at hj
      obtain rfl := by simpa using hj
      have hne := insertAll_ok_avoids ts rows₁ res h b hb k hk nr
        (by rw [hrows₁]; exact List.mem_append_right _ (by simp))
      rw [hnr] at hne
      exact fun he => hne he

/-- C1: `bulk_replace` is atomic: a batch containing a task without an id
fails with `ValidationError` and leaves the project's stored task set
unchanged; every failing call leaves the stored task set unchanged; and a
batch containing two tasks with the same integer id never succeeds. -/
theorem C1_bulk_replace :
    (∀ (st : StoreState) (proj table : List Char) (tasks : List TaskPayload),
      st.isOpen = true → _project_table_name proj = Except.ok table →
      (∃ t ∈ tasks, t.task_id = Option.none) →
      (bulk_replace st proj tasks).1 = Except.error StoreErr.validationError ∧
      storedTasks (bulk_replace st proj tasks).2 proj = storedTasks st proj) ∧
    (∀ (st : StoreState) (proj : List Char) (tasks : List TaskPayload) (e : StoreErr),
      (bulk_replace st proj tasks).1 = Except.error e →
      storedTasks (bulk_replace st proj tasks).2 proj = storedTasks st proj) ∧
    (∀ (st : StoreState) (proj : List Char) (tasks : List TaskPayload)
      (i j : Nat) (k : Int) (hi : i < tasks.length) (hj : j < tasks.length),
      i ≠ j →
      (tasks[i]).task_id = some (PyVal.int k) →
      (tasks[j]).task_id = some (PyVal.int k) →
      (bulk_replace st proj tasks).1 ≠ Except.ok ()) := by
  refine ⟨?_, ?_, ?_⟩
  · intro st proj table tasks ho hn hmiss
    obtain ⟨st₁, hens⟩ := ensure_table_ok st proj table ho hn
    have hnorm := normalizeTasks_missing tasks hmiss
    have hbr : bulk_replace st proj tasks = (Except.error StoreErr.validationError, st₁) := by
      unfold bulk_replace
      simp [ho, hens, hnorm]
    rw [hbr]
    obtain ⟨_, _, _, hstored⟩ := ensure_table_spec st proj table st₁ hens
    exact ⟨rfl, by rw [hstored]; simp [storedTasks, hn]⟩
  · intro st proj tasks e herr
    by_cases ho : st.isOpen
    · cases hens : _ensure_table st proj with
      | error e' =>
        have hbr : bulk_replace st proj tasks = (Except.error e', st) := by
          unfold bulk_replace
          simp [ho, hens]
        rw [hbr]
      | ok pr =>
        obtain ⟨table, st₁⟩ := pr
        obtain ⟨_, hn, _, hstored⟩ := ensure_table_spec st proj table st₁ hens
        have hsame : storedTasks st₁ proj = storedTasks st proj := by
          rw [hstored]
          simp [storedTasks, hn]
        cases hnorm : normalizeTasks tasks with
        | error e' =>
          have hbr : bulk_replace st proj tasks = (Except.error e', st₁) := by
            unfold bulk_replace
            simp [ho, hens, hnorm]
          rw [hbr]
          exact hsame
        | ok normalized =>
          cases hins : insertAll [] normalized with
          | some newRows =>
            have hbr : bulk_replace st proj tasks =
                (Except.ok (), setTable st₁ table newRows) := by
              unfold bulk_replace
              simp [ho, hens, hnorm, hins]
            rw [hbr] at herr
            exact absurd herr (by simp)
          | none =>
            have hbr : bulk_replace st proj tasks =
                (Except.error StoreErr.storageError, st₁) := by
              unfold bulk_replace
              simp [ho, hens, hnorm, hins]
            rw [hbr]
            exact hsame
    · simp only [Bool.not_eq_true'] at ho
      have hbr : bulk_replace st proj tasks = (Except.error StoreErr.notOpen, st) := by
        unfold bulk_replace
        simp [ho]
      rw [hbr]
  · intro st proj tasks i j k hi hj hij hidi hidj hok
    by_cases ho : st.isOpen
    · cases hens : _ensure_table st proj with
      | error e' =>
        have hbr : (bulk_replace st proj tasks).1 = Except.error e' := by
          unfold bulk_replace
          simp [ho, hens]
        rw [hbr] at hok
        exact absurd hok (by simp)
      | ok pr =>
        obtain ⟨table, st₁⟩ := pr
        cases hnorm : normalizeTasks tasks with
        | error e' =>
          have hbr : (bulk_replace st proj tasks).1 = Except.error e' := by
            unfold bulk_replace
            simp [ho, hens, hnorm]
          rw [hbr] at hok
          exact absurd hok (by simp)
        | ok normalized =>
          cases hins : insertAll [] normalized with
          | none =>
            have hbr : (bulk_replace st proj tasks).1 =
                Except.error StoreErr.storageError := by
              unfold bulk_replace
              simp [ho, hens, hnorm, hins]
            rw [hbr] at hok
            exact absurd hok (by simp)
          | some newRows =>
            obtain rfl := normalizeTasks_ok tasks normalized hnorm
            have hpw := insertAll_ok_pairwise (tasks.map normalizeTask) [] newRows hins
            have hpw' := List.pairwise_map.mp hpw
            have hidin : toIdCell (normalizeTask tasks[i]).task_id = some k := by
              simp [normalizeTask, hidi, toIdCell]
            have hidjn : toIdCell (normalizeTask tasks[j]).task_id = some k := by
              simp [normalizeTask, hidj, toIdCell]
            rcases Nat.lt_or_ge i j with hlt | hge
            · exact (List.pairwise_iff_getElem.mp hpw' i j hi hj hlt) k k hidin hidjn rfl
            · have hlt : j < i := Nat.lt_of_le_of_ne hge (fun he => hij he.symm)
              exact (List.pairwise_iff_getElem.mp hpw' j i hj hi hlt) k k hidjn hidin rfl
    · simp only [Bool.not_eq_true'] at ho
      have hbr : (bulk_replace st proj tasks).1 = Except.error StoreErr.notOpen := by
        unfold bulk_replace
        simp [ho]
      rw [hbr] at hok
      exact absurd hok (by simp)

/-- Witness for C1: on an open store holding one task for project `p`, a
batch with a task lacking an id fails with `ValidationError` and leaves the
stored task set unchanged, and a batch with a duplicated id 1 does not
succeed. -/
theorem C1_bulk_replace_witness :
    (bulk_replace ⟨true, [(("tasks_p".data),
        [⟨1, SQVal.text "old", SQVal.text "", SQVal.text "", SQVal.text "",
          SQVal.text "", 0⟩])]⟩ ("p".data)
      [{ task_id := Option.none }]).1 = Except.error StoreErr.validationError ∧
    storedTasks (bulk_replace ⟨true, [(("tasks_p".data),
        [⟨1, SQVal.text "old", SQVal.text "", SQVal.text "", SQVal.text "",
          SQVal.text "", 0⟩])]⟩ ("p".data)
      [{ task_id := Option.none }]).2 ("p".data) =
      storedTasks ⟨true, [(("tasks_p".data),
        [⟨1, SQVal.text "old", SQVal.text "", SQVal.text "", SQVal.text "",
          SQVal.text "", 0⟩])]⟩ ("p".data) ∧
    (bulk_replace ⟨true, [(("tasks_p".data),
        [⟨1, SQVal.text "old", SQVal.text "", SQVal.text "", SQVal.text "",
          SQVal.text "", 0⟩])]⟩ ("p".data)
      [{ task_id := some (PyVal.int 1) }, { task_id := some (PyVal.int 1) }]).1 ≠
      Except.ok () := by
  obtain ⟨h1, h2⟩ := C1_bulk_replace.1
    ⟨true, [(("tasks_p".data),
      [⟨1, SQVal.text "old", SQVal.text "", SQVal.text "", SQVal.text "",
        SQVal.text "", 0⟩])]⟩ ("p".data) ("tasks_p".data)
    [{ task_id := Option.none }] rfl rfl
    ⟨{ task_id := Option.none }, by simp, rfl⟩
  refine ⟨h1, h2, ?_⟩
  exact C1_bulk_replace.2.2
    ⟨true, [(("tasks_p".data),
      [⟨1, SQVal.text "old", SQVal.text "", SQVal.text "", SQVal.text "",
        SQVal.text "", 0⟩])]⟩ ("p".data)
    [{ task_id := some (PyVal.int 1) }, { task_id := some (PyVal.int 1) }]
    0 1 1 (by decide) (by decide) (by decide) rfl rfl

/-! ### The normalization invariant of the storage engine -/

/-- Whether an SQLite cell holds a text value. -/
def SQVal.isText : SQVal → Bool
  | .text _ => true
  | _ => false

/-- A stored task row is well-formed when its five text columns hold text
and its highlight column holds 0 or 1. -/
def rowWF (r : Row) : Bool :=
  r.summary.isText && r.assignee.isText && r.remarks.isText &&
    r.status.isText && r.priority.isText && (r.highlight == 0 || r.highlight == 1)

/-- Every row of every table is well-formed. -/
def stateWF (st : StoreState) : Prop :=
  ∀ p ∈ st.tables, ∀ r ∈ p.2, rowWF r = true

/-- A normalized `bulk_replace` entry yields well-formed cells on insertion. -/
def normRowOk (t : NormRow) : Prop :=
  (toTextCell t.summary).isText = true ∧ (toTextCell t.assignee).isText = true ∧
    (toTextCell t.remarks).isText = true ∧ (toTextCell t.status).isText = true ∧
    (toTextCell t.priority).isText = true ∧ (t.highlight = 0 ∨ t.highlight = 1)

theorem toTextCell_normText_isText (v : Option PyVal) :
    ∃ s, toTextCell (normText v) = SQVal.text s := by
  unfold normText
  cases hv : v.getD PyVal.none with
  | none => exact ⟨"", rfl⟩
  | str s =>
    by_cases ht : (PyVal.str s).truthy
    · exact ⟨s, by simp [ht, toTextCell]⟩
    · exact ⟨"", by simp [ht, toTextCell]⟩
  | int n =>
    by_cases ht : (PyVal.int n).truthy
    · exact ⟨toString n, by simp [ht, toTextCell]⟩
    · exact ⟨"", by simp [ht, toTextCell]⟩
  | bool b =>
    by_cases ht : (PyVal.bool b).truthy
    · exact ⟨toString (if b then (1 : Int) else 0), by simp [ht, toTextCell]⟩
    · exact ⟨"", by simp [ht, toTextCell]⟩

theorem toTextCell_normText_falsy (v : Option PyVal)
    (h : (v.getD PyVal.none).truthy = false) :
    toTextCell (normText v) = SQVal.text "" := by
  unfold normText
  simp [h, toTextCell]

theorem normHighlight_cases (v : Option PyVal) :
    normHighlight v = 0 ∨ normHighlight v = 1 := by
  unfold normHighlight
  by_cases h : (v.getD PyVal.none).truthy <;> simp [h]

theorem toTextCell_normText_isText_bool (v : Option PyVal) :
    (toTextCell (normText v)).isText = true := by
  obtain ⟨s, hs⟩ := toTextCell_normText_isText v
  rw [hs]
  rfl

theorem normalizeTask_ok (p : TaskPayload) : normRowOk (normalizeTask p) :=
  ⟨toTextCell_normText_isText_bool p.summary,
   toTextCell_normText_isText_bool p.assignee,
   toTextCell_normText_isText_bool p.remarks,
   toTextCell_normText_isText_bool p.status,
   toTextCell_normText_isText_bool p.priority,
   normHighlight_cases p.highlight⟩

theorem lookupRows_mem (l : List (List Char × List Row)) (t : List Char)
    (rows : List Row) (h : lookupRows l t = some rows) : (t, rows) ∈ l := by
  induction l with
  | nil => simp [lookupRows] at h
  | cons p ps ih =>
    unfold lookupRows at h
    by_cases hp : p.1 = t
    · simp only [hp, if_true, Option.some.injEq] at h
      subst h
      have hpair : (t, p.2) = p := by
        rw [← hp]
      rw [hpair]
      exact List.mem_cons_self p ps
    · right
      exact ih (by simpa [hp] using h)

theorem setTable_WF (st : StoreState) (tbl : List Char) (rows : List Row)
    (hst : stateWF st) (hrows : ∀ r ∈ rows, rowWF r = true) :
    stateWF (setTable st tbl rows) := by
  intro p hp r hr
  simp only [setTable, List.mem_map] at hp
  obtain ⟨q, hq, hfq⟩ := hp
  by_cases hqt : q.1 = tbl
  · simp only [hqt, if_true] at hfq
    subst hfq
    exact hrows r hr
  · simp only [hqt, if_false] at hfq
    subst hfq
    exact hst q hq r hr

theorem ensure_table_cases (st : StoreState) (proj table : List Char) (st₁ : StoreState)
    (h : _ensure_table st proj = Except.ok (table, st₁)) :
    st₁ = st ∨ st₁ = { st with tables := st.tables ++ [(table, [])] } := by
  unfold _ensure_table at h
  by_cases ho : st.isOpen
  · simp only [ho, Bool.not_true, Bool.false_eq_true, if_false] at h
    cases hn : _project_table_name proj with
    | error e => rw [hn] at h; exact absurd h (by simp)
    | ok tb =>
      rw [hn] at h
      dsimp only at h
      cases hl : lookupTable st tb with
      | some rows =>
        rw [hl] at h
        obtain ⟨rfl, rfl⟩ := by simpa using h
        exact Or.inl rfl
      | none =>
        rw [hl] at h
        obtain ⟨rfl, rfl⟩ := by simpa using h
        exact Or.inr (by rw [ho])
  · simp only [Bool.not_eq_true'] at ho
    simp [ho] at h

theorem ensure_table_WF (st : StoreState) (proj table : List Char) (st₁ : StoreState)
    (h : _ensure_table st proj = Except.ok (table, st₁)) (hst : stateWF st) :
    stateWF st₁ := by
  rcases ensure_table_cases st proj table st₁ h with rfl | rfl
  · exact hst
  · intro p hp r hr
    rcases List.mem_append.mp hp with hmem | hmem
    · exact hst p hmem r hr
    · simp only [List.mem_singleton] at hmem
      subst hmem
      simp at hr

theorem lookup_getD_WF (st : StoreState) (tbl : List Char) (hst : stateWF st) :
    ∀ r ∈ (lookupTable st tbl).getD [], rowWF r = true := by
  cases hl : lookupTable st tbl with
  | none => simp
  | some rows =>
    simp only [Option.getD_some]
    exact hst (tbl, rows) (lookupRows_mem st.tables tbl rows hl)

theorem insertNormRow_WF (rows : List Row) (t : NormRow) (rows₁ : List Row)
    (h : insertNormRow rows t = some rows₁)
    (hrows : ∀ r ∈ rows, rowWF r = true) (ht : normRowOk t) :
    ∀ r ∈ rows₁, rowWF r = true := by
  unfold insertNormRow at h
  cases hk : toIdCell t.task_id with
  | none => rw [hk] at h; exact absurd h (by simp)
  | some k =>
    rw [hk] at h
    by_cases hmem : rows.any (fun r => r.task_id == k)
    · simp [hmem] at h
    · simp only [hmem, Bool.false_eq_true, if_false, Option.some.injEq] at h
      subst h
      intro r hr
      rcases List.mem_append.mp hr with hmem₁ | hmem₁
      · exact hrows r hmem₁
      · simp only [List.mem_singleton] at hmem₁
        subst hmem₁
        obtain ⟨h1, h2, h3, h4, h5, h6⟩ := ht
        simp only [rowWF, h1, h2, h3, h4, h5, Bool.and_true, Bool.true_and]
        rcases h6 with h6 | h6 <;> simp [h6]

theorem insertAll_WF : ∀ (ts : List NormRow) (rows res : List Row),
    insertAll rows ts = some res →
    (∀ r ∈ rows, rowWF r = true) → (∀ t ∈ ts, normRowOk t) →
    ∀ r ∈ res, rowWF r = true := by
  intro ts
  induction ts with
  | nil =>
    intro rows res h hrows _
    obtain rfl := by simpa [insertAll] using h
    exact hrows
  | cons t₀ ts ih =>
    intro rows res h hrows hts
    unfold insertAll at h
    cases hins : insertNormRow rows t₀ with
    | none => rw [hins] at h; exact absurd h (by simp)
    | some rows₁ =>
      rw [hins] at h
      have h₁ := insertNormRow_WF rows t₀ rows₁ hins hrows (hts t₀ (by simp))
      exact ih rows₁ res h h₁ (fun t htm => hts t (List.mem_cons_of_mem _ htm))

theorem isText_exists (v : SQVal) (h : v.isText = true) : ∃ s, v = SQVal.text s := by
  cases v with
  | null => simp [SQVal.isText] at h
  | int n => simp [SQVal.isText] at h
  | text s => exact ⟨s, rfl⟩

theorem rowWF_fields (r : Row) (h : rowWF r = true) :
    (∃ s, r.summary = SQVal.text s) ∧ (∃ s, r.assignee = SQVal.text s) ∧
    (∃ s, r.remarks = SQVal.text s) ∧ (∃ s, r.status = SQVal.text s) ∧
    (∃ s, r.priority = SQVal.text s) := by
  simp only [rowWF, Bool.and_eq_true] at h
  obtain ⟨⟨⟨⟨⟨h1, h2⟩, h3⟩, h4⟩, h5⟩, _⟩ := h
  exact ⟨isText_exists _ h1, isText_exists _ h2, isText_exists _ h3,
    isText_exists _ h4, isText_exists _ h5⟩

/-- C10: the storage engine's implicit normalization invariant: a missing,
`None` or falsy text field is stored as the empty string; a stored text
field is always a string cell; the highlight flag is stored as 1 exactly
when the supplied value is truthy and 0 otherwise; `upsert_task` and
`bulk_replace` preserve row well-formedness; and on a well-formed store
every row returned by `fetch_all` carries string text fields and a boolean
highlight. -/
theorem C10_normalization_invariant :
    (∀ v : Option PyVal, (v.getD PyVal.none).truthy = false →
      toTextCell (normText v) = SQVal.text "") ∧
    (∀ v : Option PyVal, ∃ s, toTextCell (normText v) = SQVal.text s) ∧
    (∀ v : Option PyVal,
      (normHighlight v = 1 ↔ (v.getD PyVal.none).truthy = true) ∧
      (normHighlight v = 0 ↔ (v.getD PyVal.none).truthy = false)) ∧
    (∀ (st : StoreState) (proj : List Char) (task : TaskPayload),
      stateWF st → stateWF (upsert_task st proj task).2) ∧
    (∀ (st : StoreState) (proj : List Char) (tasks : List TaskPayload),
      stateWF st → stateWF (bulk_replace st proj tasks).2) ∧
    (∀ (st : StoreState) (proj : List Char) (out : List FetchedTask) (st₁ : StoreState),
      stateWF st → fetch_all st proj = (Except.ok out, st₁) →
      ∀ ft ∈ out,
        (∃ s, ft.summary = PyVal.str s) ∧ (∃ s, ft.assignee = PyVal.str s) ∧
        (∃ s, ft.remarks = PyVal.str s) ∧ (∃ s, ft.status = PyVal.str s) ∧
        (∃ s, ft.priority = PyVal.str s) ∧ (∃ b, ft.highlight = PyVal.bool b)) := by
  refine ⟨toTextCell_normText_falsy, toTextCell_normText_isText, ?_, ?_, ?_, ?_⟩
  · intro v
    unfold normHighlight
    by_cases h : (v.getD PyVal.none).truthy <;> simp [h]
  · intro st proj task hst
    unfold upsert_task
    by_cases ho : st.isOpen
    · simp only [ho, Bool.not_true, Bool.false_eq_true, if_false]
      by_cases hreq : (task.task_id.isNone || task.summary.isNone || task.status.isNone
          || task.priority.isNone : Bool)
      · simp only [hreq, if_true]
        exact hst
      · simp only [hreq, Bool.false_eq_true, if_false]
        cases hens : _ensure_table st proj with
        | error e => exact hst
        | ok pr =>
          obtain ⟨table, st₁⟩ := pr
          have hwf₁ := ensure_table_WF st proj table st₁ hens hst
          cases hk : toIdCell (task.task_id.getD PyVal.none) with
          | none => exact hwf₁
          | some tid =>
            dsimp only
            refine setTable_WF st₁ table _ hwf₁ ?_
            have hnew : rowWF
                { task_id := tid
                  summary := toTextCell (normText task.summary)
                  assignee := toTextCell (normText task.assignee)
                  remarks := toTextCell (normText task.remarks)
                  status := toTextCell (normText task.status)
                  priority := toTextCell (normText task.priority)
                  highlight := normHighlight task.highlight } = true := by
              simp only [rowWF, toTextCell_normText_isText_bool, Bool.true_and]
              rcases normHighlight_cases task.highlight with h | h <;> simp [h]
            have hrows := lookup_getD_WF st₁ table hwf₁
            by_cases hany : ((lookupTable st₁ table).getD []).any
                (fun r => r.task_id == tid)
            · simp only [hany, if_true]
              intro r hr
              obtain ⟨q, hq, hfq⟩ := List.mem_map.mp hr
              by_cases hqt : q.task_id = tid
              · rw [if_pos (by exact decide_eq_true hqt ▸ (by simp [hqt]))] at hfq
                · rw [← hfq]
                  exact hnew
              · rw [if_neg (by simp [hqt])] at hfq
                rw [← hfq]
                exact hrows q hq
            · simp only [hany, Bool.false_eq_true, if_false]
              intro r hr
              rcases List.mem_append.mp hr with hmem | hmem
              · exact hrows r hmem
              · simp only [List.mem_singleton] at hmem
                subst hmem
                exact hnew
    · simp only [Bool.not_eq_true'] at ho
      simp only [ho, Bool.not_false, if_true]
      exact hst
  · intro st proj tasks hst
    unfold bulk_replace
    by_cases ho : st.isOpen
    · simp only [ho, Bool.not_true, Bool.false_eq_true, if_false]
      cases hens : _ensure_table st proj with
      | error e => exact hst
      | ok pr =>
        obtain ⟨table, st₁⟩ := pr
        dsimp only
        have hwf₁ := ensure_table_WF st proj table st₁ hens hst
        cases hnorm : normalizeTasks tasks with
        | error e => exact hwf₁
        | ok normalized =>
          dsimp only
          cases hins : insertAll [] normalized with
          | none => exact hwf₁
          | some newRows =>
            dsimp only
            refine setTable_WF st₁ table _ hwf₁ ?_
            refine insertAll_WF normalized [] newRows hins (by simp) ?_
            intro t htm
            obtain rfl := normalizeTasks_ok tasks normalized hnorm
            obtain ⟨p, _, hfp⟩ := List.mem_map.mp htm
            rw [← hfp]
            exact normalizeTask_ok p
    · simp only [Bool.not_eq_true'] at ho
      simp only [ho, Bool.not_false, if_true]
      exact hst
  · intro st proj out st₁ hst h ft hft
    unfold fetch_all at h
    by_cases ho : st.isOpen
    · simp only [ho, Bool.not_true, Bool.false_eq_true, if_false] at h
      cases hens : _ensure_table st proj with
      | error e => rw [hens] at h; exact absurd h (by simp)
      | ok pr =>
        obtain ⟨table, st'⟩ := pr
        rw [hens] at h
        obtain ⟨hout, rfl⟩ := by simpa using h
        have hwf' := ensure_table_WF st proj table st' hens hst
        have hrows := lookup_getD_WF st' table hwf'
        rw [← hout] at hft
        obtain ⟨r, hr, hfr⟩ := List.mem_map.mp hft
        have hrm : r ∈ (lookupTable st' table).getD [] :=
          (List.perm_insertionSort rowLe _).mem_iff.mp hr
        have hwf := hrows r hrm
        obtain ⟨⟨s1, e1⟩, ⟨s2, e2⟩, ⟨s3, e3⟩, ⟨s4, e4⟩, ⟨s5, e5⟩⟩ := rowWF_fields r hwf
        rw [← hfr]
        refine ⟨⟨s1, ?_⟩, ⟨s2, ?_⟩, ⟨s3, ?_⟩, ⟨s4, ?_⟩, ⟨s5, ?_⟩,
          ⟨(r.highlight != 0), rfl⟩⟩ <;>
          simp [rowToDict, e1, e2, e3, e4, e5, sqToPy]
    · simp only [Bool.not_eq_true'] at ho
      simp [ho] at h

/-- Witness for C10 at concrete inputs: a falsy summary is stored as the
empty text; an upsert with missing optional fields into a well-formed
one-table store keeps the store well-formed; and fetching the store built
that way returns string text fields and a boolean highlight. -/
theorem C10_normalization_invariant_witness :
    toTextCell (normText (some (PyVal.str ""))) = SQVal.text "" ∧
    stateWF (upsert_task ⟨true, [(("tasks_p".data), [])]⟩ ("p".data)
      { task_id := some (PyVal.int 0), summary := some (PyVal.str "s"),
        status := some (PyVal.str "Not Started"),
        priority := some (PyVal.str "Medium") }).2 ∧
    (∀ ft ∈ [rowToDict ⟨7, SQVal.text "x", SQVal.text "", SQVal.text "",
        SQVal.text "s", SQVal.text "m", 1⟩],
      (∃ s, ft.summary = PyVal.str s) ∧ (∃ s, ft.assignee = PyVal.str s) ∧
      (∃ s, ft.remarks = PyVal.str s) ∧ (∃ s, ft.status = PyVal.str s) ∧
      (∃ s, ft.priority = PyVal.str s) ∧ (∃ b, ft.highlight = PyVal.bool b)) := by
  refine ⟨?_, ?_, ?_⟩
  · exact C10_normalization_invariant.1 (some (PyVal.str "")) rfl
  · exact C10_normalization_invariant.2.2.2.1 ⟨true, [(("tasks_p".data), [])]⟩
      ("p".data)
      { task_id := some (PyVal.int 0), summary := some (PyVal.str "s"),
        status := some (PyVal.str "Not Started"),
        priority := some (PyVal.str "Medium") }
      (by intro p hp r hr; simp only [List.mem_singleton] at hp; rw [hp] at hr; simp at hr)
  · exact C10_normalization_invariant.2.2.2.2.2
      ⟨true, [(("tasks_p".data),
        [⟨7, SQVal.text "x", SQVal.text "", SQVal.text "",
          SQVal.text "s", SQVal.text "m", 1⟩])]⟩
      ("p".data)
      [rowToDict ⟨7, SQVal.text "x", SQVal.text "", SQVal.text "",
        SQVal.text "s", SQVal.text "m", 1⟩]
      ⟨true, [(("tasks_p".data),
        [⟨7, SQVal.text "x", SQVal.text "", SQVal.text "",
          SQVal.text "s", SQVal.text "m", 1⟩])]⟩
      (by intro p hp r hr
          simp only [List.mem_singleton] at hp
          rw [hp] at hr
          simp only [List.mem_singleton] at hr
          rw [hr]
          rfl)
      rfl

/-! ## CLI task manager (`task_manager.py`)

`TaskManager.projects` maps a project name to its task dictionary, keyed by
task id.  In the source, ids are the decimal string forms of consecutive
integers assigned by `_generate_task_id` (which parses them back with
`int`, skipping unparsable keys); every id the manager itself assigns is
such a decimal string, so ids are modelled by their numeric values.  The
task payloads stored under the ids do not influence id assignment or
deletion and are not modelled. -/

/-- Python `max` over a list of naturals. -/
def listMax (l : List Nat) : Nat := l.foldl Nat.max 0

namespace TaskManager

/-- The in-memory `projects` dictionary: project name to the list of task
ids, in insertion order. -/
structure TMState where
  projects : List (String × List Nat)
  deriving DecidableEq, Repr

/-- Dictionary lookup for a project's task-id set. -/
def tmLookup : List (String × List Nat) → String → Option (List Nat)
  | [], _ => Option.none
  | p :: ps, name => if p.1 = name then some p.2 else tmLookup ps name

/-- Replace a project's task-id set. -/
def tmSet (tm : TMState) (name : String) (ids : List Nat) : TMState :=
  ⟨tm.projects.map (fun p => if p.1 = name then (p.1, ids) else p)⟩

/-- Embedding of `TaskManager._generate_task_id`: `1` for an unknown or
empty project, else `max(existing ids) + 1`. -/
def _generate_task_id (tm : TMState) (project_name : String) : Nat :=
  match tmLookup tm.projects project_name with
  | Option.none => 1
  | some ids => if ids.isEmpty then 1 else listMax ids + 1

/-- Embedding of `TaskManager.create_project`: fails (returning the state
unchanged and `false`) when the project exists. -/
def create_project (tm : TMState) (name : String) : TMState × Bool :=
  match tmLookup tm.projects name with
  | some _ => (tm, false)
  | Option.none => (⟨tm.projects ++ [(name, [])]⟩, true)

/-- Embedding of `TaskManager.create_task`: fails on an unknown project,
otherwise stores the new task under `_generate_task_id` and returns the
assigned id. -/
def create_task (tm : TMState) (project_name : String) : Option (TMState × Nat) :=
  match tmLookup tm.projects project_name with
  | Option.none => Option.none
  | some ids =>
    let tid := _generate_task_id tm project_name
    let ids₁ := if tid ∈ ids then ids else ids ++ [tid]
    some (tmSet tm project_name ids₁, tid)

/-- Embedding of `TaskManager.delete_task`: fails on an unknown project or
task id, otherwise removes the id. -/
def delete_task (tm : TMState) (project_name : String) (task_id : Nat) :
    Option TMState :=
  match tmLookup tm.projects project_name with
  | Option.none => Option.none
  | some ids =>
    if task_id ∈ ids then some (tmSet tm project_name (ids.erase task_id))
    else Option.none

/-- `n` successive `create_task` calls, collecting the assigned ids. -/
def createSeq (tm : TMState) (p : String) : Nat → TMState × List Nat
  | 0 => (tm, [])
  | n + 1 =>
    let r := createSeq tm p n
    match create_task r.1 p with
    | some (tm₂, tid) => (tm₂, r.2 ++ [tid])
    | Option.none => r

end TaskManager

/-! ### Lemmas about `listMax` -/

theorem foldl_max_le (l : List Nat) (acc m : Nat) (hacc : acc ≤ m)
    (h : ∀ a ∈ l, a ≤ m) : l.foldl Nat.max acc ≤ m := by
  induction l generalizing acc with
  | nil => exact hacc
  | cons a t ih =>
    exact ih (Nat.max acc a) (Nat.max_le.mpr ⟨hacc, h a (by simp)⟩)
      (fun b hb => h b (List.mem_cons_of_mem _ hb))

theorem le_foldl_max (l : List Nat) (acc : Nat) :
    acc ≤ l.foldl Nat.max acc ∧ ∀ a ∈ l, a ≤ l.foldl Nat.max acc := by
  induction l generalizing acc with
  | nil => exact ⟨Nat.le_refl _, by simp⟩
  | cons a t ih =>
    obtain ⟨h1, h2⟩ := ih (Nat.max acc a)
    refine ⟨Nat.le_trans (Nat.le_max_left acc a) h1, ?_⟩
    intro b hb
    rcases List.mem_cons.mp hb with rfl | hmem
    · exact Nat.le_trans (Nat.le_max_right acc b) h1
    · exact h2 b hmem

theorem foldl_max_mem (l : List Nat) (acc : Nat) :
    l.foldl Nat.max acc = acc ∨ l.foldl Nat.max acc ∈ l := by
  induction l generalizing acc with
  | nil => exact Or.inl rfl
  | cons a t ih =>
    rcases ih (Nat.max acc a) with h | h
    · by_cases hc : acc ≤ a
      · right
        have hm : Nat.max acc a = a := Nat.max_eq_right hc
        rw [List.foldl_cons, h, hm]
        exact List.mem_cons_self a t
      · left
        have hm : Nat.max acc a = acc := Nat.max_eq_left (le_of_not_le hc)
        rw [List.foldl_cons, h, hm]
    · right
      exact List.mem_cons_of_mem _ h

theorem listMax_erase (ids : List Nat) (d : Nat) (hd : d ∈ ids)
    (hlt : d < listMax ids) :
    listMax (ids.erase d) = listMax ids ∧ listMax ids ∈ ids.erase d := by
  have hmem : listMax ids ∈ ids := by
    rcases foldl_max_mem ids 0 with h | h
    · rw [listMax] at hlt; omega
    · exact h
  have hne : listMax ids ≠ d := by omega
  have hmem' : listMax ids ∈ ids.erase d := (List.mem_erase_of_ne hne).mpr hmem
  constructor
  · apply Nat.le_antisymm
    · exact foldl_max_le (ids.erase d) 0 (listMax ids) (Nat.zero_le _)
        (fun a ha => (le_foldl_max ids 0).2 a (List.erase_subset d ids ha))
    · exact (le_foldl_max (ids.erase d) 0).2 _ hmem'
  · exact hmem'

theorem listMax_range' (n : Nat) : listMax (List.range' 1 n) = n := by
  induction n with
  | zero => rfl
  | succ n ih =>
    rw [List.range'_concat, listMax, List.foldl_append]
    simp only [List.foldl_cons, List.foldl_nil, one_mul]
    have hl : List.foldl Nat.max 0 (List.range' 1 n) = n := ih
    rw [hl]
    have h1 : Nat.max n (1 + n) ≤ n + 1 := Nat.max_le.mpr ⟨by omega, by omega⟩
    have h2 : 1 + n ≤ Nat.max n (1 + n) := Nat.le_max_right n (1 + n)
    omega

theorem notMem_range'_succ (n : Nat) : (n + 1) ∉ List.range' 1 n := by
  intro h
  have := List.mem_range'_1.mp h
  omega

theorem tmLookup_tmSet (l : List (String × List Nat)) (p : String)
    (ids new : List Nat) (h : TaskManager.tmLookup l p = some ids) :
    TaskManager.tmLookup
      (l.map (fun q => if q.1 = p then (q.1, new) else q)) p = some new := by
  induction l with
  | nil => simp [TaskManager.tmLookup] at h
  | cons q qs ih =>
    by_cases hq : q.1 = p
    · simp [TaskManager.tmLookup, hq]
    · simp only [TaskManager.tmLookup, hq, if_false] at h
      simp only [List.map_cons, hq, if_false]
      simpa [TaskManager.tmLookup, hq] using ih h

/-- C2: falsified as stated - on a fresh project the first generated task
id is 1, not 0 (and the first `create_task` stores and returns id 1). -/
theorem C2_counterexample :
    TaskManager._generate_task_id
      (TaskManager.create_project ⟨[]⟩ "P").1 "P" = 1 ∧
    TaskManager.create_task (TaskManager.create_project ⟨[]⟩ "P").1 "P" =
      some (⟨[("P", [1])]⟩, 1) ∧
    (1 : Nat) ≠ 0 := by
  refine ⟨rfl, rfl, by decide⟩

/-- C2 (amended): on a fresh project the assigned ids are 1, 2, 3, ... in
call order; the next id is `max(existing ids) + 1` (or 1 when the live set
is empty or the project is unknown), a function of the live stored set
only; and after deleting a non-final id the next generated id is still
`max(existing) + 1`, so a deleted non-final id is never reused. -/
theorem C2_generate_task_id :
    (∀ n : Nat,
      TaskManager.createSeq (TaskManager.create_project ⟨[]⟩ "P").1 "P" n =
        (⟨[("P", List.range' 1 n)]⟩, List.range' 1 n)) ∧
    (∀ (tm : TaskManager.TMState) (p : String) (ids : List Nat),
      TaskManager.tmLookup tm.projects p = some ids → ids ≠ [] →
      TaskManager._generate_task_id tm p = listMax ids + 1) ∧
    (∀ (tm tm' : TaskManager.TMState) (p : String),
      TaskManager.tmLookup tm.projects p = TaskManager.tmLookup tm'.projects p →
      TaskManager._generate_task_id tm p = TaskManager._generate_task_id tm' p) ∧
    (∀ (tm : TaskManager.TMState) (p : String) (ids : List Nat) (d : Nat),
      TaskManager.tmLookup tm.projects p = some ids →
      d ∈ ids → d < listMax ids →
      ∃ tm', TaskManager.delete_task tm p d = some tm' ∧
        TaskManager._generate_task_id tm' p = listMax ids + 1 ∧
        TaskManager._generate_task_id tm' p = TaskManager._generate_task_id tm p ∧
        TaskManager._generate_task_id tm' p ≠ d) := by
  have hgen : ∀ (tm : TaskManager.TMState) (p : String) (ids : List Nat),
      TaskManager.tmLookup tm.projects p = some ids → ids ≠ [] →
      TaskManager._generate_task_id tm p = listMax ids + 1 := by
    intro tm p ids hl hne
    unfold TaskManager._generate_task_id
    rw [hl]
    simp [List.isEmpty_iff, hne]
  refine ⟨?_, hgen, ?_, ?_⟩
  · intro n
    induction n with
    | zero => rfl
    | succ n ih =>
      have hlook : TaskManager.tmLookup
          ([("P", List.range' 1 n)] : List (String × List Nat)) "P" =
          some (List.range' 1 n) := by
        simp [TaskManager.tmLookup]
      have htid : TaskManager._generate_task_id ⟨[("P", List.range' 1 n)]⟩ "P" =
          n + 1 := by
        cases n with
        | zero => rfl
        | succ m =>
          rw [hgen ⟨[("P", List.range' 1 (m + 1))]⟩ "P" (List.range' 1 (m + 1))
            (by simp [TaskManager.tmLookup]) (by simp [List.range'])]
          rw [listMax_range']
      show (let r := TaskManager.createSeq (TaskManager.create_project ⟨[]⟩ "P").1 "P" n
        match TaskManager.create_task r.1 "P" with
        | some (tm₂, tid) => (tm₂, r.2 ++ [tid])
        | Option.none => r) = _
      rw [ih]
      have harr : List.range' 1 (n + 1) = List.range' 1 n ++ [n + 1] := by
        rw [List.range'_concat, one_mul, Nat.add_comm 1 n]
      have hct : TaskManager.create_task ⟨[("P", List.range' 1 n)]⟩ "P" =
          some (⟨[("P", List.range' 1 n ++ [n + 1])]⟩, n + 1) := by
        unfold TaskManager.create_task
        rw [hlook]
        dsimp only
        rw [htid, if_neg (notMem_range'_succ n)]
        simp [TaskManager.tmSet]
      dsimp only
      rw [hct]
      dsimp only
      rw [harr]
  · intro tm tm' p h
    unfold TaskManager._generate_task_id
    rw [h]
  · intro tm p ids d hl hd hlt
    obtain ⟨hmax_eq, hmax_mem⟩ := listMax_erase ids d hd hlt
    have hdel : TaskManager.delete_task tm p d =
        some (TaskManager.tmSet tm p (ids.erase d)) := by
      unfold TaskManager.delete_task
      rw [hl]
      simp [hd]
    have hlook' : TaskManager.tmLookup
        (TaskManager.tmSet tm p (ids.erase d)).projects p = some (ids.erase d) :=
      tmLookup_tmSet tm.projects p ids (ids.erase d) hl
    have hg' := hgen (TaskManager.tmSet tm p (ids.erase d)) p (ids.erase d)
      hlook' (List.ne_nil_of_mem hmax_mem)
    refine ⟨TaskManager.tmSet tm p (ids.erase d), hdel, ?_, ?_, ?_⟩
    · rw [hg', hmax_eq]
    · rw [hg', hgen tm p ids hl (List.ne_nil_of_mem hd), hmax_eq]
    · rw [hg', hmax_eq]
      omega

/-- Witness for the amended C2: three creates on a fresh project `P` assign
ids 1, 2, 3, and deleting the non-final id 1 leaves the next generated id
at `max + 1 = 4`, never reusing 1. -/
theorem C2_generate_task_id_witness :
    TaskManager.createSeq (TaskManager.create_project ⟨[]⟩ "P").1 "P" 3 =
      (⟨[("P", List.range' 1 3)]⟩, List.range' 1 3) ∧
    (∃ tm', TaskManager.delete_task ⟨[("P", [1, 2, 3])]⟩ "P" 1 = some tm' ∧
      TaskManager._generate_task_id tm' "P" = listMax [1, 2, 3] + 1 ∧
      TaskManager._generate_task_id tm' "P" =
        TaskManager._generate_task_id ⟨[("P", [1, 2, 3])]⟩ "P" ∧
      TaskManager._generate_task_id tm' "P" ≠ 1) := by
  refine ⟨C2_generate_task_id.1 3, ?_⟩
  exact C2_generate_task_id.2.2.2 ⟨[("P", [1, 2, 3])]⟩ "P" [1, 2, 3] 1
    rfl (by decide) (by decide)

/-! ## Request-payload validation layer (`src/taskman/project.py`)

`Project` keeps its tasks in an in-memory list; the API helpers validate
untyped JSON payloads and return `(response, http_status)` while mutating
the list.  Writing the list back to the task file never fails in the model
(the `except` fallback to 500 on a failing save is out of scope).  A JSON
payload is a `Payload`: Python `None`, a non-dict value, or a dict. -/

/-- Task status enum (`TaskStatus`). -/
inductive TStatus where
  | notStarted | inProgress | completed
  deriving DecidableEq, Repr

/-- Task priority enum (`TaskPriority`). -/
inductive TPriority where
  | low | medium | high
  deriving DecidableEq, Repr

/-- `TaskStatus(value)`: succeeds exactly on the enum's string values. -/
def TStatus.ofVal? : PyVal → Option TStatus
  | .str "Not Started" => some .notStarted
  | .str "In Progress" => some .inProgress
  | .str "Completed" => some .completed
  | _ => Option.none

/-- `TaskPriority(value)`: succeeds exactly on the enum's string values. -/
def TPriority.ofVal? : PyVal → Option TPriority
  | .str "Low" => some .low
  | .str "Medium" => some .medium
  | .str "High" => some .high
  | _ => Option.none

/-- An in-memory task of `Project` (`Task`): enums are stored as enums,
`id` may be unassigned. -/
structure PTask where
  id : Option Int
  summary : String
  assignee : String
  remarks : String
  status : TStatus
  priority : TPriority
  deriving DecidableEq, Repr

/-- Python `str()` on a JSON-derived value. -/
def pyStr : PyVal → String
  | .none => "None"
  | .str s => s
  | .int n => toString n
  | .bool b => if b then "True" else "False"

/-- Python `int()` on a JSON-derived value: `TypeError`/`ValueError`
becomes `Option.none`. -/
def pyToInt? : PyVal → Option Int
  | .int n => some n
  | .bool b => some (if b then 1 else 0)
  | .str s => s.toInt?
  | .none => Option.none

/-- A JSON request payload: Python `None`, some non-dict value, or a dict
of shape `α`. -/
inductive Payload (α : Type) where
  | pyNone : Payload α
  | nonDict : Payload α
  | dict (d : α) : Payload α

/-- First-match lookup in a JSON object's entry list. -/
def flookup : List (String × PyVal) → String → Option PyVal
  | [], _ => Option.none
  | kv :: rest, k => if kv.1 = k then some kv.2 else flookup rest k

namespace Project

/-- The `update` payload dict: the `index` key (absent = `Option.none`) and
the `fields` key (`Option.none` when absent or not a dict). -/
structure UpdatePayload where
  index : Option PyVal := Option.none
  fields : Option (List (String × PyVal)) := Option.none

/-- The `create` payload dict; unknown keys are ignored by the source. -/
structure CreatePayload where
  summary : Option PyVal := Option.none
  assignee : Option PyVal := Option.none
  remarks : Option PyVal := Option.none
  status : Option PyVal := Option.none
  priority : Option PyVal := Option.none

/-- The `delete` payload dict. -/
structure DeletePayload where
  index : Option PyVal := Option.none

/-- An API response: the `ok` JSON object or the `error` object. -/
inductive Resp where
  | ok (index : Nat) (task : PTask)
  | err (msg : String)
  deriving DecidableEq, Repr

/-- The allowed partial-update field names of `update_task_from_payload`. -/
def allowedFields : List String :=
  ["summary", "assignee", "remarks", "status", "priority"]

/-- `int(payload.get("index", -1))`. -/
def parseIndex (v : Option PyVal) : Option Int :=
  match v with
  | Option.none => some (-1)
  | some x => pyToInt? x

/-- `str(v) if v is not None else ""` applied to a present field. -/
def strOrEmpty : PyVal → String
  | .none => ""
  | v => pyStr v

/-- Apply the validated partial update to one task, in source order. -/
def applyFields (t : PTask) (fields : List (String × PyVal)) : PTask :=
  let t₁ := match flookup fields "summary" with
    | some v => { t with summary := strOrEmpty v }
    | Option.none => t
  let t₂ := match flookup fields "assignee" with
    | some v => { t₁ with assignee := strOrEmpty v }
    | Option.none => t₁
  let t₃ := match flookup fields "remarks" with
    | some v => { t₂ with remarks := strOrEmpty v }
    | Option.none => t₂
  let t₄ := match flookup fields "status" with
    | some v => match TStatus.ofVal? v with
      | some st => { t₃ with status := st }
      | Option.none => t₃
    | Option.none => t₃
  match flookup fields "priority" with
  | some v => match TPriority.ofVal? v with
    | some pr => { t₄ with priority := pr }
    | Option.none => t₄
  | Option.none => t₄

/-- Embedding of `Project.update_task_from_payload`: validates the payload
(index parse, non-empty dict `fields`, allowed keys, bounds, strict enums)
and applies the partial update, returning `(response, status)` and the
post-state task list. -/
def update_task_from_payload (tasks : List PTask) (payload : Payload UpdatePayload) :
    (Resp × Nat) × List PTask :=
  match payload with
  | .pyNone => ((Resp.err "Invalid payload", 400), tasks)
  | .nonDict => ((Resp.err "Invalid payload", 400), tasks)
  | .dict p =>
    match parseIndex p.index with
    | Option.none => ((Resp.err "'index' must be an integer", 400), tasks)
    | some index =>
      match p.fields with
      | Option.none => ((Resp.err "'fields' must be a non-empty object", 400), tasks)
      | some fields =>
        if fields.isEmpty then
          ((Resp.err "'fields' must be a non-empty object", 400), tasks)
        else if fields.any (fun kv => kv.1 ∉ allowedFields) then
          ((Resp.err "Unknown fields present", 400), tasks)
        else if index < 0 ∨ tasks.length ≤ index then
          ((Resp.err "Index out of range", 400), tasks)
        else if (flookup fields "status").isSome ∧
            (TStatus.ofVal? ((flookup fields "status").getD PyVal.none)).isNone then
          ((Resp.err "Invalid status", 400), tasks)
        else if (flookup fields "priority").isSome ∧
            (TPriority.ofVal? ((flookup fields "priority").getD PyVal.none)).isNone then
          ((Resp.err "Invalid priority", 400), tasks)
        else
          let i := index.toNat
          match tasks[i]? with
          | Option.none => ((Resp.err "Index out of range", 400), tasks)
          | some t =>
            let t' := applyFields t fields
            ((Resp.ok i t', 200), tasks.set i t')

/-- Embedding of `Project.create_task_from_payload`: fields are optional,
`str()`-coerced, and an invalid enum value silently falls back to the
default (`Not Started` / `Medium`); the new task is appended. -/
def create_task_from_dict (tasks : List PTask) (p : CreatePayload) :
    (Resp × Nat) × List PTask :=
    let summary := pyStr (p.summary.getD (PyVal.str ""))
    let assignee := pyStr (p.assignee.getD (PyVal.str ""))
    let remarks := pyStr (p.remarks.getD (PyVal.str ""))
    let status := match TStatus.ofVal? (p.status.getD (PyVal.str "Not Started")) with
      | some st => st
      | Option.none => TStatus.notStarted
    let priority := match TPriority.ofVal? (p.priority.getD (PyVal.str "Medium")) with
      | some pr => pr
      | Option.none => TPriority.medium
    let new : PTask := ⟨Option.none, summary, assignee, remarks, status, priority⟩
    ((Resp.ok tasks.length new, 200), tasks ++ [new])

/-- Embedding of `Project.create_task_from_payload`: a `None` payload is
treated as the empty dict, a non-dict payload is rejected. -/
def create_task_from_payload (tasks : List PTask) (payload : Payload CreatePayload) :
    (Resp × Nat) × List PTask :=
  match payload with
  | .nonDict => ((Resp.err "Invalid payload", 400), tasks)
  | .pyNone => create_task_from_dict tasks {}
  | .dict p => create_task_from_dict tasks p

/-- Embedding of `Project.delete_task_from_payload`: validates the index
and removes the task at that position. -/
def delete_task_from_payload (tasks : List PTask) (payload : Payload DeletePayload) :
    (Resp × Nat) × List PTask :=
  match payload with
  | .pyNone => ((Resp.err "Invalid payload", 400), tasks)
  | .nonDict => ((Resp.err "Invalid payload", 400), tasks)
  | .dict p =>
    match parseIndex p.index with
    | Option.none => ((Resp.err "'index' must be an integer", 400), tasks)
    | some index =>
      if index < 0 ∨ tasks.length ≤ index then
        ((Resp.err "Index out of range", 400), tasks)
      else
        let i := index.toNat
        match tasks[i]? with
        | Option.none => ((Resp.err "Index out of range", 400), tasks)
        | some t => ((Resp.ok i t, 200), tasks.eraseIdx i)

end Project

/-- C3: create and update treat invalid enum values asymmetrically: a
create payload whose status or priority is not a valid enum value succeeds
(200) with the invalid value silently replaced by the default (`Not
Started` / `Medium`), while an update payload carrying an invalid status or
priority value is rejected with 400 and leaves the task list unchanged. -/
theorem C3_enum_asymmetry :
    (∀ (tasks : List PTask) (p : Project.CreatePayload) (v : PyVal),
      p.status = some v → TStatus.ofVal? v = Option.none →
      (Project.create_task_from_payload tasks (.dict p)).1.2 = 200 ∧
      ∃ t, (Project.create_task_from_payload tasks (.dict p)).2 = tasks ++ [t] ∧
        t.status = TStatus.notStarted) ∧
    (∀ (tasks : List PTask) (p : Project.CreatePayload) (v : PyVal),
      p.priority = some v → TPriority.ofVal? v = Option.none →
      (Project.create_task_from_payload tasks (.dict p)).1.2 = 200 ∧
      ∃ t, (Project.create_task_from_payload tasks (.dict p)).2 = tasks ++ [t] ∧
        t.priority = TPriority.medium) ∧
    (∀ (tasks : List PTask) (u : Project.UpdatePayload)
      (fields : List (String × PyVal)) (v : PyVal),
      u.fields = some fields → flookup fields "status" = some v →
      TStatus.ofVal? v = Option.none →
      (Project.update_task_from_payload tasks (.dict u)).1.2 = 400 ∧
      (Project.update_task_from_payload tasks (.dict u)).2 = tasks) ∧
    (∀ (tasks : List PTask) (u : Project.UpdatePayload)
      (fields : List (String × PyVal)) (v : PyVal),
      u.fields = some fields → flookup fields "priority" = some v →
      TPriority.ofVal? v = Option.none →
      (Project.update_task_from_payload tasks (.dict u)).1.2 = 400 ∧
      (Project.update_task_from_payload tasks (.dict u)).2 = tasks) := by
  refine ⟨?_, ?_, ?_, ?_⟩
  · intro tasks p v hps hv
    unfold Project.create_task_from_payload Project.create_task_from_dict
    dsimp only
    rw [hps]
    simp only [Option.getD_some, hv]
    exact ⟨trivial, _, rfl, rfl⟩
  · intro tasks p v hps hv
    unfold Project.create_task_from_payload Project.create_task_from_dict
    dsimp only
    rw [hps]
    simp only [Option.getD_some, hv]
    exact ⟨trivial, _, rfl, rfl⟩
  · intro tasks u fields v hf hlook hv
    unfold Project.update_task_from_payload
    dsimp only
    cases hpi : Project.parseIndex u.index with
    | none => exact ⟨rfl, rfl⟩
    | some index =>
      dsimp only
      rw [hf]
      dsimp only
      split_ifs with h1 h2 h3 h4 h5
      · exact ⟨rfl, rfl⟩
      · exact ⟨rfl, rfl⟩
      · exact ⟨rfl, rfl⟩
      · exact ⟨rfl, rfl⟩
      · exact ⟨rfl, rfl⟩
      · exact absurd ⟨by rw [hlook]; rfl, by rw [hlook]; simpa using hv⟩ h4
  · intro tasks u fields v hf hlook hv
    unfold Project.update_task_from_payload
    dsimp only
    cases hpi : Project.parseIndex u.index with
    | none => exact ⟨rfl, rfl⟩
    | some index =>
      dsimp only
      rw [hf]
      dsimp only
      split_ifs with h1 h2 h3 h4 h5
      · exact ⟨rfl, rfl⟩
      · exact ⟨rfl, rfl⟩
      · exact ⟨rfl, rfl⟩
      · exact ⟨rfl, rfl⟩
      · exact ⟨rfl, rfl⟩
      · exact absurd ⟨by rw [hlook]; rfl, by rw [hlook]; simpa using hv⟩ h5

/-- Witness for C3: creating with the invalid status `Started` and the
invalid priority `Urgent` succeeds with the defaults, while updating an
existing task with either value is rejected with 400 and changes nothing. -/
theorem C3_enum_asymmetry_witness :
    ((Project.create_task_from_payload []
        (.dict { status := some (PyVal.str "Started") })).1.2 = 200 ∧
      ∃ t, (Project.create_task_from_payload []
        (.dict { status := some (PyVal.str "Started") })).2 = [] ++ [t] ∧
        t.status = TStatus.notStarted) ∧
    ((Project.create_task_from_payload []
        (.dict { priority := some (PyVal.str "Urgent") })).1.2 = 200 ∧
      ∃ t, (Project.create_task_from_payload []
        (.dict { priority := some (PyVal.str "Urgent") })).2 = [] ++ [t] ∧
        t.priority = TPriority.medium) ∧
    ((Project.update_task_from_payload
        [⟨some 0, "S", "A", "R", TStatus.notStarted, TPriority.low⟩]
        (.dict { index := some (PyVal.int 0),
                 fields := some [("status", PyVal.str "Started")] })).1.2 = 400 ∧
      (Project.update_task_from_payload
        [⟨some 0, "S", "A", "R", TStatus.notStarted, TPriority.low⟩]
        (.dict { index := some (PyVal.int 0),
                 fields := some [("status", PyVal.str "Started")] })).2 =
        [⟨some 0, "S", "A", "R", TStatus.notStarted, TPriority.low⟩]) := by
  refine ⟨?_, ?_, ?_⟩
  · exact C3_enum_asymmetry.1 [] { status := some (PyVal.str "Started") }
      (PyVal.str "Started") rfl rfl
  · exact C3_enum_asymmetry.2.1 [] { priority := some (PyVal.str "Urgent") }
      (PyVal.str "Urgent") rfl rfl
  · exact C3_enum_asymmetry.2.2.1
      [⟨some 0, "S", "A", "R", TStatus.notStarted, TPriority.low⟩]
      { index := some (PyVal.int 0),
        fields := some [("status", PyVal.str "Started")] }
      [("status", PyVal.str "Started")] (PyVal.str "Started") rfl rfl rfl

/-- C4: falsified as stated - `highlight` is not in the update handler's
allowed field set: updating the (existing, valid) task at index 0 with the
single claimed-allowed key `highlight` is rejected as an unknown field with
status 400, leaving the task unchanged. -/
theorem C4_counterexample :
    Project.update_task_from_payload
      [⟨some 0, "S", "A", "R", TStatus.notStarted, TPriority.low⟩]
      (.dict { index := some (PyVal.int 0),
               fields := some [("highlight", PyVal.bool true)] }) =
      ((Project.Resp.err "Unknown fields present", 400),
       [⟨some 0, "S", "A", "R", TStatus.notStarted, TPriority.low⟩]) ∧
    "highlight" ∈
      ["summary", "assignee", "remarks", "status", "priority", "highlight"] := by
  exact ⟨rfl, by simp⟩

/-- C4 (amended): the update handler addresses tasks by 0-based index (not
id) and its allowed field set is exactly (summary, assignee, remarks,
status, priority) - `highlight` is rejected like any other unknown key.
Every rejection returns 400 and leaves the task list unchanged; any payload
containing a key outside the allowed set is rejected; and a 200 response
requires a non-empty `fields` dict with only allowed keys and an in-range
integer index. -/
theorem C4_update_field_validation :
    (∀ (tasks : List PTask) (payload : Payload Project.UpdatePayload),
      (Project.update_task_from_payload tasks payload).1.2 = 200 ∨
      ((Project.update_task_from_payload tasks payload).1.2 = 400 ∧
       (Project.update_task_from_payload tasks payload).2 = tasks)) ∧
    (∀ (tasks : List PTask) (u : Project.UpdatePayload)
      (fields : List (String × PyVal)) (kv : String × PyVal),
      u.fields = some fields → kv ∈ fields → kv.1 ∉ Project.allowedFields →
      (Project.update_task_from_payload tasks (.dict u)).1.2 = 400 ∧
      (Project.update_task_from_payload tasks (.dict u)).2 = tasks) ∧
    (∀ (tasks : List PTask) (u : Project.UpdatePayload),
      (Project.update_task_from_payload tasks (.dict u)).1.2 = 200 →
      ∃ fields, u.fields = some fields ∧ fields ≠ [] ∧
        (∀ kv ∈ fields, kv.1 ∈ Project.allowedFields) ∧
        ∃ i : Int, Project.parseIndex u.index = some i ∧ 0 ≤ i ∧
          i.toNat < tasks.length) := by
  refine ⟨?_, ?_, ?_⟩
  · intro tasks payload
    cases payload with
    | pyNone => exact Or.inr ⟨rfl, rfl⟩
    | nonDict => exact Or.inr ⟨rfl, rfl⟩
    | dict p =>
      unfold Project.update_task_from_payload
      dsimp only
      cases hpi : Project.parseIndex p.index with
      | none => exact Or.inr ⟨rfl, rfl⟩
      | some index =>
        dsimp only
        cases hf : p.fields with
        | none => exact Or.inr ⟨rfl, rfl⟩
        | some fields =>
          dsimp only
          split_ifs with h1 h2 h3 h4 h5
          · exact Or.inr ⟨rfl, rfl⟩
          · exact Or.inr ⟨rfl, rfl⟩
          · exact Or.inr ⟨rfl, rfl⟩
          · exact Or.inr ⟨rfl, rfl⟩
          · exact Or.inr ⟨rfl, rfl⟩
          · cases hg : tasks[index.toNat]? with
            | none => exact Or.inr ⟨rfl, rfl⟩
            | some t => exact Or.inl rfl
  · intro tasks u fields kv hf hmem hnot
    have hany : fields.any (fun kv => decide (kv.1 ∉ Project.allowedFields)) = true :=
      List.any_eq_true.mpr ⟨kv, hmem, by simpa using hnot⟩
    unfold Project.update_task_from_payload
    dsimp only
    cases hpi : Project.parseIndex u.index with
    | none => exact ⟨rfl, rfl⟩
    | some index =>
      dsimp only
      rw [hf]
      dsimp only
      split_ifs with h1
      · exact ⟨rfl, rfl⟩
      · exact ⟨rfl, rfl⟩
  · intro tasks u h
    unfold Project.update_task_from_payload at h
    dsimp only at h
    cases hpi : Project.parseIndex u.index with
    | none => rw [hpi] at h; simp at h
    | some index =>
      rw [hpi] at h
      dsimp only at h
      cases hf : u.fields with
      | none => rw [hf] at h; simp at h
      | some fields =>
        rw [hf] at h
        dsimp only at h
        refine ⟨fields, rfl, ?_⟩
        split_ifs at h with h1 h2 h3 h4 h5
        · simp at h
        · simp at h
        · simp at h
        · simp at h
        · simp at h
        · refine ⟨fun he => h1 (by simp [he]), ?_, index, rfl, ?_⟩
          · intro kv hkv
            by_contra hnot
            exact h2 (List.any_eq_true.mpr ⟨kv, hkv, by simpa using hnot⟩)
          · push_neg at h3
            omega

/-- Witness for the amended C4: rejecting the unknown key `foo` on a
one-task list returns 400 and leaves the list unchanged, and a successful
highlight-free update of the same task satisfies the necessity conditions. -/
theorem C4_update_field_validation_witness :
    ((Project.update_task_from_payload
        [⟨some 0, "S", "A", "R", TStatus.notStarted, TPriority.low⟩]
        (.dict { index := some (PyVal.int 0),
                 fields := some [("foo", PyVal.str "x")] })).1.2 = 400 ∧
      (Project.update_task_from_payload
        [⟨some 0, "S", "A", "R", TStatus.notStarted, TPriority.low⟩]
        (.dict { index := some (PyVal.int 0),
                 fields := some [("foo", PyVal.str "x")] })).2 =
        [⟨some 0, "S", "A", "R", TStatus.notStarted, TPriority.low⟩]) ∧
    (∃ fields, (some [("summary", PyVal.str "New")] :
        Option (List (String × PyVal))) = some fields ∧ fields ≠ [] ∧
      (∀ kv ∈ fields, kv.1 ∈ Project.allowedFields) ∧
      ∃ i : Int, Project.parseIndex (some (PyVal.int 0)) = some i ∧ 0 ≤ i ∧
        i.toNat < ([⟨some 0, "S", "A", "R", TStatus.notStarted,
          TPriority.low⟩] : List PTask).length) := by
  constructor
  · exact C4_update_field_validation.2.1
      [⟨some 0, "S", "A", "R", TStatus.notStarted, TPriority.low⟩]
      { index := some (PyVal.int 0), fields := some [("foo", PyVal.str "x")] }
      [("foo", PyVal.str "x")] ("foo", PyVal.str "x") rfl (by simp) (by simp [Project.allowedFields])
  · exact C4_update_field_validation.2.2
      [⟨some 0, "S", "A", "R", TStatus.notStarted, TPriority.low⟩]
      { index := some (PyVal.int 0), fields := some [("summary", PyVal.str "New")] }
      rfl

/-! ## Task mutation routes (`tasker_server.py`)

`_read_json` yields `Option.none` for an unreadable body (bad
Content-Length or invalid JSON); a readable body is a `Payload` (`pyNone`
for a JSON `null`, `nonDict` for other non-object JSON, `dict` for an
object).  Each route handler returns the HTTP status and the post-state
task list of the addressed project. -/

namespace Routes

/-- The `tasks/update` route: a `None` body (unreadable or JSON `null`) is
rejected as invalid JSON, a non-dict body as an invalid payload; otherwise
the update is delegated to the `Project` model. -/
def tasks_update (tasks : List PTask)
    (body : Option (Payload Project.UpdatePayload)) : Nat × List PTask :=
  match body with
  | Option.none => (400, tasks)
  | some .pyNone => (400, tasks)
  | some .nonDict => (400, tasks)
  | some (.dict d) =>
    let r := Project.update_task_from_payload tasks (.dict d)
    (r.1.2, r.2)

/-- The `tasks/create` route: an unreadable or `None` body is replaced by
the empty object before delegating to the `Project` model. -/
def tasks_create (tasks : List PTask)
    (body : Option (Payload Project.CreatePayload)) : Nat × List PTask :=
  match body with
  | Option.none =>
    let r := Project.create_task_from_payload tasks (.dict {})
    (r.1.2, r.2)
  | some .pyNone =>
    let r := Project.create_task_from_payload tasks (.dict {})
    (r.1.2, r.2)
  | some b =>
    let r := Project.create_task_from_payload tasks b
    (r.1.2, r.2)

/-- The `tasks/delete` route: the body is handed to the `Project` model
unchecked (an unreadable body arrives as Python `None`). -/
def tasks_delete (tasks : List PTask)
    (body : Option (Payload Project.DeletePayload)) : Nat × List PTask :=
  match body with
  | Option.none =>
    let r := Project.delete_task_from_payload tasks .pyNone
    (r.1.2, r.2)
  | some b =>
    let r := Project.delete_task_from_payload tasks b
    (r.1.2, r.2)

end Routes

/-- C8: falsified as stated - a POST to the create route with a body that
is not valid JSON does not yield 400: the route substitutes the empty
object, responds 200, and appends a default task. -/
theorem C8_counterexample :
    Routes.tasks_create [] Option.none =
      (200, [⟨Option.none, "", "", "", TStatus.notStarted, TPriority.medium⟩]) ∧
    (200 : Nat) ≠ 400 := by
  exact ⟨rfl, by decide⟩

/-- C8 (amended): a non-JSON body yields 400 with no mutation on the update
and delete routes, while the create route treats it as an empty payload and
creates a default task with status 200. -/
theorem C8_malformed_body :
    (∀ tasks : List PTask, Routes.tasks_update tasks Option.none = (400, tasks)) ∧
    (∀ tasks : List PTask, Routes.tasks_delete tasks Option.none = (400, tasks)) ∧
    (∀ tasks : List PTask, Routes.tasks_create tasks Option.none =
      (200, tasks ++
        [⟨Option.none, "", "", "", TStatus.notStarted, TPriority.medium⟩])) := by
  exact ⟨fun tasks => rfl, fun tasks => rfl, fun tasks => rfl⟩

/-! ## Project registry (`src/taskman/server/project_manager.py`)

The registry state is the canonical project-name list of `projects.json`,
the per-project task and markdown export files (keyed by the lowercased
project name from which their paths are derived), and the tag mapping of
`project_tags.json` (keyed by lowercased project name).  File contents are
opaque strings.  `edit_project_name` mirrors the source: check the old name
case-insensitively, refuse a collision with a different project, then
update the registry row, rename both files, and move the tags. -/

/-- Lowercase a name, as `str.lower()` (ASCII). -/
def lowerName (s : List Char) : List Char := s.map Char.toLower

/-- First-match association lookup with `List Char` keys. -/
def alookup {V : Type} : List (List Char × V) → List Char → Option V
  | [], _ => Option.none
  | p :: ps, k => if p.1 = k then some p.2 else alookup ps k

/-- Replace the first entry with the given key, appending when absent. -/
def aset {V : Type} : List (List Char × V) → List Char → V → List (List Char × V)
  | [], k, v => [(k, v)]
  | p :: ps, k, v => if p.1 = k then (k, v) :: ps else p :: aset ps k v

/-- Remove the first entry with the given key. -/
def aerase {V : Type} : List (List Char × V) → List Char → List (List Char × V)
  | [], _ => []
  | p :: ps, k => if p.1 = k then ps else p :: aerase ps k

/-- `os.rename(old, new)` / `mapping[new] = mapping.pop(old)` on an
association list: a no-op when the old key is absent. -/
def moveKey {V : Type} (l : List (List Char × V)) (o n : List Char) :
    List (List Char × V) :=
  match alookup l o with
  | Option.none => l
  | some v => aset (aerase l o) n v

/-- Position of the first occurrence (the source's `list.index`). -/
def idxOf : List (List Char) → List Char → Nat
  | [], _ => 0
  | x :: xs, k => if x = k then 0 else idxOf xs k + 1

namespace ProjectManager

/-- The registry and its derived filesystem state. -/
structure RegistryState where
  projects : List (List Char)
  taskFiles : List (List Char × String)
  mdFiles : List (List Char × String)
  tags : List (List Char × List String)

/-- The two failure modes of `edit_project_name` (the source prints the
corresponding error message and returns `False`). -/
inductive RenameErr where
  | notFound | conflict
  deriving DecidableEq, Repr

/-- Embedding of `ProjectManager.edit_project_name`. -/
def edit_project_name (st : RegistryState) (old new : List Char) :
    Except RenameErr Unit × RegistryState :=
  let projects_lower := st.projects.map lowerName
  let old_l := lowerName old
  let new_l := lowerName new
  if old_l ∉ projects_lower then (Except.error RenameErr.notFound, st)
  else
    let old_idx := idxOf projects_lower old_l
    if new_l ∈ projects_lower ∧ idxOf projects_lower new_l ≠ old_idx then
      (Except.error RenameErr.conflict, st)
    else
      (Except.ok (),
        { projects := st.projects.set old_idx new
          taskFiles := moveKey st.taskFiles old_l new_l
          mdFiles := moveKey st.mdFiles old_l new_l
          tags := moveKey st.tags old_l new_l })

end ProjectManager

/-! ### Lemmas about key moves -/

theorem alookup_aset_self {V : Type} (l : List (List Char × V)) (k : List Char)
    (v : V) : alookup (aset l k v) k = some v := by
  induction l with
  | nil => simp [aset, alookup]
  | cons p ps ih =>
    by_cases hp : p.1 = k
    · simp [aset, alookup, hp]
    · simp [aset, alookup, hp, ih]

theorem alookup_aset_ne {V : Type} (l : List (List Char × V)) (k key : List Char)
    (v : V) (h : k ≠ key) : alookup (aset l key v) k = alookup l k := by
  have h' : key ≠ k := Ne.symm h
  induction l with
  | nil => simp [aset, alookup, h']
  | cons p ps ih =>
    by_cases hp : p.1 = key
    · simp [aset, alookup, hp, h']
    · by_cases hk : p.1 = k
      · simp [aset, alookup, hp, hk, h, h']
      · simp [aset, alookup, hp, hk, ih]

theorem alookup_aerase_ne {V : Type} (l : List (List Char × V)) (k key : List Char)
    (h : k ≠ key) : alookup (aerase l key) k = alookup l k := by
  have h' : key ≠ k := Ne.symm h
  induction l with
  | nil => simp [aerase]
  | cons p ps ih =>
    by_cases hp : p.1 = key
    · simp [aerase, alookup, hp, h']
    · by_cases hk : p.1 = k
      · simp [aerase, alookup, hp, hk, h, h']
      · simp [aerase, alookup, hp, hk, ih]

theorem alookup_moveKey_self {V : Type} (l : List (List Char × V)) (o : List Char) :
    ∀ k, alookup (moveKey l o o) k = alookup l k := by
  intro k
  unfold moveKey
  cases hl : alookup l o with
  | none => rfl
  | some v =>
    by_cases hk : k = o
    · subst hk
      rw [alookup_aset_self, hl]
    · rw [alookup_aset_ne _ _ _ _ hk, alookup_aerase_ne _ _ _ hk]

/-- C7: `edit_project_name` fails with `NotFound` when the old name does
not exist case-insensitively and with `Conflict` when the new name already
names a different project, in both cases leaving the registry, the task
and export files, and the tags untouched; a case-only rename of the same
project succeeds, rewrites only the registry row, and preserves the task
file, export file and tags under the same lowercased identifier. -/
theorem C7_edit_project_name :
    (∀ (st : ProjectManager.RegistryState) (old new : List Char),
      lowerName old ∉ st.projects.map lowerName →
      ProjectManager.edit_project_name st old new =
        (Except.error ProjectManager.RenameErr.notFound, st)) ∧
    (∀ (st : ProjectManager.RegistryState) (old new : List Char),
      lowerName old ∈ st.projects.map lowerName →
      lowerName new ∈ st.projects.map lowerName →
      idxOf (st.projects.map lowerName) (lowerName new) ≠
        idxOf (st.projects.map lowerName) (lowerName old) →
      ProjectManager.edit_project_name st old new =
        (Except.error ProjectManager.RenameErr.conflict, st)) ∧
    (∀ (st : ProjectManager.RegistryState) (old new : List Char),
      lowerName old ∈ st.projects.map lowerName →
      lowerName old = lowerName new →
      ∃ st', ProjectManager.edit_project_name st old new = (Except.ok (), st') ∧
        st'.projects = st.projects.set
          (idxOf (st.projects.map lowerName) (lowerName old)) new ∧
        (∀ k, alookup st'.taskFiles k = alookup st.taskFiles k) ∧
        (∀ k, alookup st'.mdFiles k = alookup st.mdFiles k) ∧
        (∀ k, alookup st'.tags k = alookup st.tags k)) := by
  refine ⟨?_, ?_, ?_⟩
  · intro st old new h
    unfold ProjectManager.edit_project_name
    simp only [h, not_false_eq_true, if_true]
  · intro st old new hold hnew hne
    unfold ProjectManager.edit_project_name
    simp only [hold, not_true_eq_false, if_false]
    rw [if_pos ⟨hnew, hne⟩]
  · intro st old new hold heq
    unfold ProjectManager.edit_project_name
    simp only [hold, not_true_eq_false, if_false]
    rw [if_neg (by rw [← heq]; exact fun hc => hc.2 rfl)]
    refine ⟨_, rfl, rfl, ?_, ?_, ?_⟩ <;>
      (intro k; dsimp only; rw [← heq]; exact alookup_moveKey_self _ _ k)

/-- Witness for C7 on the registry (Alpha, Beta): renaming the unknown
Gamma fails with `NotFound`, renaming Alpha onto Beta fails with
`Conflict` (both leaving the state untouched), and the case-only rename
Alpha to ALPHA succeeds with the tags of `alpha` preserved. -/
theorem C7_edit_project_name_witness :
    ProjectManager.edit_project_name
      ⟨[("Alpha".data), ("Beta".data)], [], [], [(("alpha".data), ["t1"])]⟩
      ("Gamma".data) ("Delta".data) =
      (Except.error ProjectManager.RenameErr.notFound,
       ⟨[("Alpha".data), ("Beta".data)], [], [], [(("alpha".data), ["t1"])]⟩) ∧
    ProjectManager.edit_project_name
      ⟨[("Alpha".data), ("Beta".data)], [], [], [(("alpha".data), ["t1"])]⟩
      ("Alpha".data) ("BETA".data) =
      (Except.error ProjectManager.RenameErr.conflict,
       ⟨[("Alpha".data), ("Beta".data)], [], [], [(("alpha".data), ["t1"])]⟩) ∧
    (∃ st', ProjectManager.edit_project_name
      ⟨[("Alpha".data), ("Beta".data)], [], [], [(("alpha".data), ["t1"])]⟩
      ("Alpha".data) ("ALPHA".data) = (Except.ok (), st') ∧
      st'.projects = [("ALPHA".data), ("Beta".data)] ∧
      alookup st'.tags ("alpha".data) = some ["t1"]) := by
  refine ⟨?_, ?_, ?_⟩
  · exact C7_edit_project_name.1
      ⟨[("Alpha".data), ("Beta".data)], [], [], [(("alpha".data), ["t1"])]⟩
      ("Gamma".data) ("Delta".data) (by decide)
  · exact C7_edit_project_name.2.1
      ⟨[("Alpha".data), ("Beta".data)], [], [], [(("alpha".data), ["t1"])]⟩
      ("Alpha".data) ("BETA".data) (by decide) (by decide) (by decide)
  · obtain ⟨st', h1, h2, _, _, h5⟩ := C7_edit_project_name.2.2
      ⟨[("Alpha".data), ("Beta".data)], [], [], [(("alpha".data), ["t1"])]⟩
      ("Alpha".data) ("ALPHA".data) (by decide) (by decide)
    refine ⟨st', h1, ?_, ?_⟩
    · rw [h2]
      rfl
    · rw [h5 ("alpha".data)]
      rfl

end Taskman
